import Mathlib

/-!
Verification of the SVG normalization/export pipeline of `src/utils/inkscapeConverter.js`
(a Mermaid-to-Inkscape SVG converter).  The JavaScript source is shallowly embedded:
strings are `String`/`List Char`, JS objects and `Map`s are insertion-ordered association
lists, numbers handled by `parseFloat` are rationals (`ℚ`), and the DOM tree is a
`GNode` tree.  Each definition carries a comment pointing to the source lines it embeds.
-/

/-! ### JavaScript string primitives -/

/-- Membership of a character in the JS regex class `\d`. -/
def isDigitC (c : Char) : Bool := 48 ≤ c.toNat && c.toNat ≤ 57

/-- Membership of a character in the JS regex class `\s` (ASCII range). -/
def isWsChar (c : Char) : Bool :=
  c == ' ' || c == '\t' || c == '\n' || c == '\r' || c == '\x0b' || c == '\x0c'

/-- `String.prototype.trim` on a character list: strip leading whitespace. -/
def dropLeadWs (l : List Char) : List Char := l.dropWhile isWsChar

/-- `String.prototype.trim`: strip whitespace from both ends. -/
def jsTrimL (l : List Char) : List Char :=
  ((l.dropWhile isWsChar).reverse.dropWhile isWsChar).reverse

/-- `String.prototype.trim` at the `String` level. -/
def jsTrim (s : String) : String := ⟨jsTrimL s.toList⟩

/-- `str.split(sep)` for a single-character separator, JS semantics:
empty pieces are kept, and the result is always non-empty. -/
def splitChar (sep : Char) : List Char → List (List Char)
  | [] => [[]]
  | c :: rest =>
    match splitChar sep rest with
    | [] => [[]]
    | p :: ps => if c == sep then [] :: p :: ps else (c :: p) :: ps

/-- `str.split(/\s+/)`, JS semantics: a run of whitespace is one separator;
a leading or trailing run produces an empty piece. -/
def splitWsR : List Char → List (List Char)
  | [] => [[]]
  | [c] => if isWsChar c then [[], []] else [[c]]
  | c :: d :: rest =>
    if isWsChar c then
      if isWsChar d then splitWsR (d :: rest)
      else [] :: splitWsR (d :: rest)
    else
      match splitWsR (d :: rest) with
      | [] => [[c]]
      | p :: ps => (c :: p) :: ps

/-- `str.replace(/\s+/g, ' ')`: collapse each whitespace run to a single space. -/
def collapseWsL : List Char → List Char
  | [] => []
  | [c] => if isWsChar c then [' '] else [c]
  | c :: d :: rest =>
    if isWsChar c && isWsChar d then collapseWsL (d :: rest)
    else (if isWsChar c then ' ' else c) :: collapseWsL (d :: rest)

/-- Joining a list of pieces with a single space (used to state that word
wrapping preserves the word sequence). -/
def joinSp : List (List Char) → List Char
  | [] => []
  | [x] => x
  | x :: xs => x ++ ' ' :: joinSp xs

/-- Does the list start with the given pattern? -/
def listStartsWith : List Char → List Char → Bool
  | _, [] => true
  | [], _ :: _ => false
  | c :: cs, p :: ps => c == p && listStartsWith cs ps

/-! ### Association lists: JS objects and `Map`s

JS object assignment `o[k] = v` and `Map.prototype.set` both replace the value
in place when the key exists (keeping its position) and append otherwise. -/

/-- JS `o[k] = v` / `map.set(k, v)` on an insertion-ordered association list
(replace in place when the key exists, append otherwise). -/
def objSet {α : Type} : List (String × α) → String → α → List (String × α)
  | [], k, v => [(k, v)]
  | (k', v') :: rest, k, v =>
    if k' == k then (k, v) :: rest else (k', v') :: objSet rest k v

/-- JS property read `o[k]` / `map.get(k)` (`none` = `undefined`). -/
def objGet {α : Type} (o : List (String × α)) (k : String) : Option α :=
  (o.find? (fun kv => kv.1 == k)).map (·.2)

/-- `Object.assign(target, source)`: copy the source's bindings in order. -/
def objAssign (target source : List (String × String)) : List (String × String) :=
  source.foldl (fun acc kv => objSet acc kv.1 kv.2) target

/-- The last binding of `k` in an (arbitrary) binding list; for a list built
with `objSet` this coincides with `objGet`. -/
def lastVal {α : Type} (o : List (String × α)) (k : String) : Option α :=
  (o.reverse.find? (fun kv => kv.1 == k)).map (·.2)

/-- JS `a || b` where `a` is a string-or-undefined: the empty string and
`undefined` are falsy. -/
def jsOrStr (a : Option String) (b : String) : String :=
  match a with
  | some v => if v == "" then b else v
  | none => b

/-- JS `a || b` where `a` is a number-or-NaN (`none` = NaN): `0` and NaN are falsy. -/
def jsOrQ (a : Option ℚ) (b : ℚ) : ℚ :=
  match a with
  | some q => if q == 0 then b else q
  | none => b

/-! ### Numbers: `parseInt` on digit strings, `parseFloat`, hex printing -/

/-- Decimal value of a digit string (JS `parseInt` restricted to `\d+` captures). -/
def decVal (l : List Char) : ℕ := l.foldl (fun a c => 10 * a + (c.toNat - 48)) 0

/-- Exponent digits of a JS float following a sign: `0` when no digits follow
(JS backtracks and leaves the exponent unconsumed). -/
def expDigits (l : List Char) : ℤ :=
  let d := l.takeWhile isDigitC
  if d.isEmpty then 0 else (decVal d : ℤ)

/-- Optional exponent suffix `e`/`E` with optional sign, as accepted by JS `parseFloat`. -/
def expPart (l : List Char) : ℤ :=
  match l with
  | 'e' :: r | 'E' :: r =>
    match r with
    | '-' :: r2 => -(expDigits r2)
    | '+' :: r2 => expDigits r2
    | _ => expDigits r
  | _ => 0

/-- Unsigned decimal mantissa: digits, an optional `.` and fraction digits; `none`
when no digit is present at all (JS yields NaN).  Returns the value and the rest. -/
def mantissaQ (l : List Char) : Option (ℚ × List Char) :=
  let ip := l.takeWhile isDigitC
  match l.dropWhile isDigitC with
  | '.' :: r2 =>
    let fp := r2.takeWhile isDigitC
    if ip.isEmpty && fp.isEmpty then none
    else some ((decVal ip : ℚ) + (decVal fp : ℚ) / (10 : ℚ) ^ fp.length,
      r2.dropWhile isDigitC)
  | r1 => if ip.isEmpty then none else some ((decVal ip : ℚ), r1)

/-- JS `parseFloat` on a character list (`none` = NaN): skips leading whitespace,
reads an optional sign, a decimal mantissa and an optional exponent, and ignores
any trailing junk.  The exotic `Infinity` form is outside the model. -/
def jsParseFloatL (l : List Char) : Option ℚ :=
  match l.dropWhile isWsChar with
  | '-' :: r => (mantissaQ r).map (fun qr => -(qr.1 * (10 : ℚ) ^ expPart qr.2))
  | '+' :: r => (mantissaQ r).map (fun qr => qr.1 * (10 : ℚ) ^ expPart qr.2)
  | l1 => (mantissaQ l1).map (fun qr => qr.1 * (10 : ℚ) ^ expPart qr.2)

/-- JS `parseFloat` on a string. -/
def jsParseFloat (s : String) : Option ℚ := jsParseFloatL s.toList

/-- One lowercase hexadecimal digit, as produced by JS `Number.prototype.toString(16)`. -/
def hexChar (k : ℕ) : Char :=
  if k < 10 then Char.ofNat (48 + k) else Char.ofNat (87 + k)

/-- Numeric value of a lowercase hexadecimal digit (decoder used to state the
round-trip property; non-hex characters map to 0). -/
def hexVal (c : Char) : ℕ :=
  if 48 ≤ c.toNat ∧ c.toNat ≤ 57 then c.toNat - 48
  else if 97 ≤ c.toNat ∧ c.toNat ≤ 102 then c.toNat - 87
  else 0

/-- Is the character a lowercase hexadecimal digit (`0`-`9`, `a`-`f`)? -/
def isLowerHexDigit (c : Char) : Bool :=
  (48 ≤ c.toNat && c.toNat ≤ 57) || (97 ≤ c.toNat && c.toNat ≤ 102)

/-- Hex digits of `n` (lowercase, most significant first), fuel-structured so that
it reduces in the kernel; `natToHex` supplies enough fuel. -/
def natToHexAux : ℕ → ℕ → List Char
  | 0, _ => []
  | f + 1, n => if n < 16 then [hexChar n] else natToHexAux f (n / 16) ++ [hexChar (n % 16)]

/-- JS `n.toString(16)` for a natural number: lowercase hex digits. -/
def natToHex (n : ℕ) : List Char := natToHexAux (n + 1) n

/-- JS `s.padStart(2, '0')`. -/
def pad2 (l : List Char) : List Char :=
  if l.length < 2 then List.replicate (2 - l.length) '0' ++ l else l

/-! ### The Color Normalizer: `rgbToHex` (inkscapeConverter.js lines 5-15) -/

/-- The anchored regex `^rgba?\((\d+),\s*(\d+),\s*(\d+)` of `rgbToHex`:
returns the three digit-string captures when the prefix matches. -/
def rgbMatch (l : List Char) : Option (List Char × List Char × List Char) :=
  match l with
  | 'r' :: 'g' :: 'b' :: rest =>
    let rest1 := match rest with
      | 'a' :: r => r
      | r => r
    match rest1 with
    | '(' :: r2 =>
      let d1 := r2.takeWhile isDigitC
      if d1.isEmpty then none else
      match r2.dropWhile isDigitC with
      | ',' :: r4 =>
        let r5 := r4.dropWhile isWsChar
        let d2 := r5.takeWhile isDigitC
        if d2.isEmpty then none else
        match r5.dropWhile isDigitC with
        | ',' :: r7 =>
          let r8 := r7.dropWhile isWsChar
          let d3 := r8.takeWhile isDigitC
          if d3.isEmpty then none else some (d1, d2, d3)
        | _ => none
      | _ => none
    | _ => none
  | _ => none

/-- `rgbToHex` (lines 5-15): `''` and `'none'` pass through; an input whose prefix
matches `^rgba?\((\d+),\s*(\d+),\s*(\d+)` is converted to
`'#' + r.toString(16).padStart(2,'0') + ...`; anything else passes through. -/
def rgbToHex (color : String) : String :=
  if color == "" || color == "none" then color
  else
    match rgbMatch color.toList with
    | some (d1, d2, d3) =>
      ⟨'#' :: (pad2 (natToHex (decVal d1)) ++ pad2 (natToHex (decVal d2)) ++
        pad2 (natToHex (decVal d3)))⟩
    | none => color

/-! ### The Style Cascade Resolver: `parseCSSRules` / `getApplicableStyles`
(inkscapeConverter.js lines 18-120) -/

/-- Rest of the input after the first `*/`, when one exists (used by the lazy
comment regex `\/\*[\s\S]*?\*\/`). -/
def afterClose : List Char → Option (List Char)
  | [] => none
  | '*' :: '/' :: r => some r
  | _ :: r => afterClose r

/-- `cssText.replace(/\/\*[\s\S]*?\*\//g, '')` (line 22): delete each comment
from `/*` to the nearest `*/`; an unterminated comment is left verbatim
(the regex finds no match there).  Fuel-structured; `stripComments` supplies
the input length as fuel. -/
def stripCommentsAux : ℕ → List Char → List Char
  | 0, l => l
  | _ + 1, [] => []
  | f + 1, '/' :: '*' :: rest =>
    (match afterClose rest with
     | some r => stripCommentsAux f r
     | none => '/' :: '*' :: rest)
  | f + 1, c :: rest => c :: stripCommentsAux f rest

/-- Comment removal at the list level. -/
def stripComments (l : List Char) : List Char := stripCommentsAux l.length l

/-- The repeated rule regex `([^{]+)\{([^}]+)\}` (line 25): the list of
(raw selector list, raw declaration block) matches, in input order.  The scan
mirrors the regex engine: a `{` with no preceding selector text or a `{}` with
an empty body cannot complete a match and the search resumes just past the
failure point.  Fuel-structured; `cssRuleMatches` supplies the input length. -/
def cssRuleMatchesAux : ℕ → List Char → List (List Char × List Char)
  | 0, _ => []
  | f + 1, l =>
    let sel := l.takeWhile (fun c => c != '{')
    match l.dropWhile (fun c => c != '{') with
    | '{' :: r1 =>
      if sel.isEmpty then cssRuleMatchesAux f r1
      else
        let decl := r1.takeWhile (fun c => c != '}')
        match r1.dropWhile (fun c => c != '}') with
        | '}' :: r2 =>
          if decl.isEmpty then cssRuleMatchesAux f r1
          else (sel, decl) :: cssRuleMatchesAux f r2
        | _ => []
    | _ => []

/-- All matches of the rule regex over the comment-stripped text. -/
def cssRuleMatches (l : List Char) : List (List Char × List Char) :=
  cssRuleMatchesAux l.length l

/-- `value.replace(/\s*!important\s*$/, '')` (line 38). -/
def stripImportant (v : List Char) : List Char :=
  let r := v.reverse.dropWhile isWsChar
  if listStartsWith r "tnatropmi!".toList then ((r.drop 10).dropWhile isWsChar).reverse
  else v

/-- Declaration-block parsing (lines 33-40): split on `;`, split each piece on
`:`, trim, keep pairs whose property and value are non-empty, strip a trailing
`!important` from the value, and assign into the styles object. -/
def parseDeclarations (declText : List Char) : List (String × String) :=
  (splitChar ';' declText).foldl (fun styles decl =>
    match (splitChar ':' decl).map jsTrimL with
    | prop :: value :: _ =>
      if prop ≠ [] ∧ value ≠ [] then objSet styles ⟨prop⟩ ⟨stripImportant value⟩
      else styles
    | _ => styles) []

/-- `parseCSSRules` (lines 18-52): strip comments, extract rule matches, parse
each declaration block, and `Map.set` every comma-separated trimmed selector to
that block's styles.  Because the result is a `Map` keyed by selector text, a
later rule with an identical selector replaces the earlier rule's entry. -/
def parseCSSRules (cssText : String) : List (String × List (String × String)) :=
  (cssRuleMatches (stripComments cssText.toList)).foldl (fun rules m =>
    let styles := parseDeclarations (jsTrimL m.2)
    (splitChar ',' (jsTrimL m.1)).foldl (fun rs sel =>
      let t := jsTrimL sel
      if t ≠ [] then objSet rs ⟨t⟩ styles else rs) rules) []

/-- `hasAncestorWithClass` (lines 60-70): does some strict ancestor's `class`
attribute (split on whitespace) contain the class name?  `ancClassAttrs` lists
the `class` attribute values (`''` when absent) of the element's strict
ancestors up to and including the root graphic element. -/
def hasAncestorWithClass (ancClassAttrs : List String) (className : List Char) : Bool :=
  ancClassAttrs.any (fun a => (splitWsR a.toList).contains className)

/-- Selector applicability for one rule (lines 73-112).  `tagName` is the
element's lowercased tag, `classAttr` its `class` attribute (`''` when absent). -/
def selMatches (selector tagName classAttr : String) (ancClassAttrs : List String)
    (idPrefix : String) : Bool :=
  let sl := selector.toList
  if sl.contains ' ' then
    let parts := splitWsR sl
    let lastPart := (parts.getLast?).getD []
    let matchesElement := lastPart == tagName.toList ||
      (lastPart.head? == some '.' && (splitWsR classAttr.toList).contains (lastPart.drop 1))
    matchesElement && parts.dropLast.any (fun part =>
      if part.head? == some '#' && part != '#' :: idPrefix.toList then false
      else if part == '#' :: idPrefix.toList then false
      else part.head? == some '.' && hasAncestorWithClass ancClassAttrs (part.drop 1))
  else if sl.head? == some '.' then
    let className := (sl.drop 1).takeWhile (fun c => !(isWsChar c || c == ':' || c == ','))
    (splitWsR classAttr.toList).contains className
  else sl == tagName.toList

/-- `getApplicableStyles` (lines 55-120): fold `Object.assign` over the rules
whose selectors match the element, in rule-map order. -/
def getApplicableStyles (tagName classAttr : String) (ancClassAttrs : List String)
    (cssRules : List (String × List (String × String))) (idPrefix : String) :
    List (String × String) :=
  cssRules.foldl (fun styles rule =>
    if selMatches rule.1 tagName classAttr ancClassAttrs idPrefix then
      objAssign styles rule.2
    else styles) []

/-! ### The Text Reconstructor's word wrap: `wrapText`
(inkscapeConverter.js lines 427-454; the identical duplicate is App.jsx 417-443) -/

/-- One step of the greedy accumulation loop (lines 437-447), acting on the
state (emitted lines, current line). -/
def wrapStep (maxWidth avgCharWidth : ℚ) (st : List (List Char) × List Char)
    (word : List Char) : List (List Char) × List Char :=
  let testLine := if st.2.isEmpty then word else st.2 ++ ' ' :: word
  let testWidth := (testLine.length : ℚ) * avgCharWidth
  if testWidth > maxWidth ∧ st.2 ≠ [] then (st.1 ++ [st.2], word) else (st.1, testLine)

/-- `wrapText` (lines 427-454): collapse whitespace and trim, split on single
spaces, greedily accumulate words into lines of estimated width
`length × fontSize × 0.5`, push the final non-empty line, and fall back to
`[cleanText]` when no line was pushed.  `fontSizeStr` is the style's font-size
string; `parseFloat(fontSize) || 16` gives the numeric size. -/
def wrapText (text : String) (maxWidth : ℚ) (fontSizeStr : String) : List String :=
  let cleanText := jsTrimL (collapseWsL text.toList)
  let words := splitChar ' ' cleanText
  let fontSize := jsOrQ (jsParseFloatL fontSizeStr.toList) 16
  let avgCharWidth := fontSize * 0.5
  let st := words.foldl (wrapStep maxWidth avgCharWidth) ([], [])
  let lines := if st.2.isEmpty then st.1 else st.1 ++ [st.2]
  if lines.isEmpty then [⟨cleanText⟩] else lines.map (fun l => (⟨l⟩ : String))

/-! ### Canvas fitting (inkscapeConverter.js lines 656-679) -/

/-- A computed bounding box, over exact rationals. -/
structure BBoxQ where
  minX : ℚ
  minY : ℚ
  maxX : ℚ
  maxY : ℚ
deriving DecidableEq, Repr

/-- The result of the canvas-fit stage: the four viewBox components and the
explicit pixel `width`/`height` attributes. -/
structure CanvasFit where
  viewBoxX : ℚ
  viewBoxY : ℚ
  viewBoxW : ℤ
  viewBoxH : ℤ
  widthAttr : ℤ
  heightAttr : ℤ
deriving DecidableEq, Repr

/-- Canvas fitting (lines 656-676): `padding = 10`,
`newWidth = Math.ceil(contentWidth + padding*2)`, viewBox
`(minX−padding, minY−padding, newWidth, newHeight)`, and the `width`/`height`
attributes set to `newWidth`/`newHeight`. -/
def fitCanvas (b : BBoxQ) : CanvasFit :=
  let padding : ℚ := 10
  let contentWidth := b.maxX - b.minX
  let contentHeight := b.maxY - b.minY
  let newWidth : ℤ := ⌈contentWidth + padding * 2⌉
  let newHeight : ℤ := ⌈contentHeight + padding * 2⌉
  { viewBoxX := b.minX - padding
    viewBoxY := b.minY - padding
    viewBoxW := newWidth
    viewBoxH := newHeight
    widthAttr := newWidth
    heightAttr := newHeight }

/-! ### The captured graphic tree

A DOM element: tag, attributes (an association list, unique keys), its own
text content, and child elements. -/

/-- A node of the captured SVG tree. -/
inductive GNode where
  | mk (tag : String) (attrs : List (String × String)) (content : String)
      (children : List GNode)

/-- The node's tag name (lowercased, as `element.tagName.toLowerCase()`). -/
def GNode.tag : GNode → String
  | .mk t _ _ _ => t

/-- The node's attribute list. -/
def GNode.attrs : GNode → List (String × String)
  | .mk _ a _ _ => a

/-- The node's direct text content. -/
def GNode.content : GNode → String
  | .mk _ _ c _ => c

/-- The node's child elements. -/
def GNode.children : GNode → List GNode
  | .mk _ _ _ cs => cs

/-- `parseFloat(el.getAttribute(k)) || 0` (the numeric-attribute idiom of the
bounding-box engine, e.g. lines 555-558). -/
def numAttr (a : List (String × String)) (k : String) : ℚ :=
  jsOrQ ((objGet a k).bind jsParseFloat) 0

/-! ### Transform parsing: `getTransform` (inkscapeConverter.js lines 488-520) -/

/-- A character of the regex class `[-\d.]`. -/
def isNumTokChar (c : Char) : Bool := isDigitC c || c == '.' || c == '-'

/-- A character of the regex class `[,\s]`. -/
def isSepChar (c : Char) : Bool := c == ',' || isWsChar c

/-- One `[-\d.]+` token followed by a `[,\s]+` separator; the token and
separator classes are disjoint, so the regex engine's match is deterministic. -/
def tokThenSep (l : List Char) : Option (List Char × List Char) :=
  let t := l.takeWhile isNumTokChar
  if t.isEmpty then none
  else
    let r := l.dropWhile isNumTokChar
    if (r.takeWhile isSepChar).isEmpty then none else some (t, r.dropWhile isSepChar)

/-- One final `[-\d.]+` token (no separator required after it). -/
def lastTok (l : List Char) : Option (List Char × List Char) :=
  let t := l.takeWhile isNumTokChar
  if t.isEmpty then none else some (t, l.dropWhile isNumTokChar)

/-- The regex `matrix\(([-\d.]+)[,\s]+...\)` anchored at the current position;
captures 1, 4, 5, 6 are kept as `(a, d, e, f)` with the `|| 1`/`|| 0` defaults
of lines 497-500 (captures 2 and 3 are ignored by the source). -/
def matrixAt : List Char → Option (ℚ × ℚ × ℚ × ℚ)
  | 'm' :: 'a' :: 't' :: 'r' :: 'i' :: 'x' :: '(' :: r => do
    let (m1, r1) ← tokThenSep r
    let (_, r2) ← tokThenSep r1
    let (_, r3) ← tokThenSep r2
    let (m4, r4) ← tokThenSep r3
    let (m5, r5) ← tokThenSep r4
    let (m6, r6) ← lastTok r5
    match r6 with
    | ')' :: _ =>
      some (jsOrQ (jsParseFloatL m1) 1, jsOrQ (jsParseFloatL m4) 1,
        jsOrQ (jsParseFloatL m5) 0, jsOrQ (jsParseFloatL m6) 0)
    | _ => none
  | _ => none

/-- `transform.match(/matrix\(...\)/)`: first position where the pattern matches. -/
def searchMatrix : List Char → Option (ℚ × ℚ × ℚ × ℚ)
  | [] => none
  | c :: rest =>
    match matrixAt (c :: rest) with
    | some v => some v
    | none => searchMatrix rest

/-- The regex `translate\(([-\d.]+)[,\s]+([-\d.]+)\)` anchored at the current
position, with the `|| 0` defaults of lines 512-513. -/
def translateAt : List Char → Option (ℚ × ℚ)
  | 't' :: 'r' :: 'a' :: 'n' :: 's' :: 'l' :: 'a' :: 't' :: 'e' :: '(' :: r => do
    let (m1, r1) ← tokThenSep r
    let (m2, r2) ← lastTok r1
    match r2 with
    | ')' :: _ => some (jsOrQ (jsParseFloatL m1) 0, jsOrQ (jsParseFloatL m2) 0)
    | _ => none
  | _ => none

/-- `transform.match(/translate\(...\)/)`: first position where the pattern matches. -/
def searchTranslate : List Char → Option (ℚ × ℚ)
  | [] => none
  | c :: rest =>
    match translateAt (c :: rest) with
    | some v => some v
    | none => searchTranslate rest

/-- The accumulated transform state of `getTransform`:
`{ tx, ty, scaleX, scaleY }`. -/
structure TState where
  sx : ℚ
  sy : ℚ
  tx : ℚ
  ty : ℚ
deriving DecidableEq, Repr

/-- One iteration of the `while` loop of `getTransform` (lines 491-516): apply
the `matrix` part (translate components composed before the scale update), then
the `translate` part scaled by the accumulated scale. -/
def stepTransform (st : TState) (attrVal : Option String) : TState :=
  match attrVal with
  | none => st
  | some s =>
    let l := s.toList
    let st1 := match searchMatrix l with
      | some (a, d, e, f) => ⟨st.sx * a, st.sy * d, st.tx * a + e, st.ty * d + f⟩
      | none => st
    match searchTranslate l with
    | some (dx, dy) => { st1 with tx := st1.tx + dx * st1.sx, ty := st1.ty + dy * st1.sy }
    | none => st1

/-- `getTransform(element)` (lines 488-520): fold the loop body over the
`transform` attributes of the element and its ancestors, nearest first,
stopping below the root `svg` element. -/
def getTransform (chain : List (Option String)) : TState :=
  chain.foldl stepTransform ⟨1, 1, 0, 0⟩

/-- `point' = scale * point + translate` (lines 530-533). -/
def applyT (st : TState) (p : ℚ × ℚ) : ℚ × ℚ :=
  (p.1 * st.sx + st.tx, p.2 * st.sy + st.ty)

/-! ### Bounding box computation: `calculateBoundingBox`
(inkscapeConverter.js lines 482-654) -/

/-- Local corner points of a `rect` (lines 553-560): `updateBounds(x, y, w, h)`
contributes the two corners `(x, y)` and `(x+w, y+h)`. -/
def rectLocalPts (a : List (String × String)) (_content : String) : List (ℚ × ℚ) :=
  let x := numAttr a "x"
  let y := numAttr a "y"
  let width := numAttr a "width"
  let height := numAttr a "height"
  [(x, y), (x + width, y + height)]

/-- Local corner points of a `circle` (lines 563-569):
`updateBounds(cx−r, cy−r, 2r, 2r)`. -/
def circleLocalPts (a : List (String × String)) (_content : String) : List (ℚ × ℚ) :=
  let cx := numAttr a "cx"
  let cy := numAttr a "cy"
  let r := numAttr a "r"
  [(cx - r, cy - r), (cx - r + r * 2, cy - r + r * 2)]

/-- Local corner points of an `ellipse` (lines 572-579). -/
def ellipseLocalPts (a : List (String × String)) (_content : String) : List (ℚ × ℚ) :=
  let cx := numAttr a "cx"
  let cy := numAttr a "cy"
  let rx := numAttr a "rx"
  let ry := numAttr a "ry"
  [(cx - rx, cy - ry), (cx - rx + rx * 2, cy - ry + ry * 2)]

/-- Local corner points of a `text` element (lines 582-592): the width is
estimated as `textContent.length × fontSize × 0.6` and the height as
`fontSize × 1.2`, centered on `(x, y)`; `parseFloat(font-size) || 16`. -/
def textLocalPts (a : List (String × String)) (content : String) : List (ℚ × ℚ) :=
  let x := numAttr a "x"
  let y := numAttr a "y"
  let fontSize := jsOrQ ((objGet a "font-size").bind jsParseFloat) 16
  let estimatedWidth := (content.length : ℚ) * fontSize * 0.6
  let estimatedHeight := fontSize * 1.2
  [(x - estimatedWidth / 2, y - estimatedHeight / 2),
   (x - estimatedWidth / 2 + estimatedWidth, y - estimatedHeight / 2 + estimatedHeight)]

/-- Maximal runs of `[\d.-]` characters: the token list of
`d.match(/[\d.-]+/g)` (line 600). -/
def numTokens : List Char → List (List Char)
  | [] => []
  | [c] => if isNumTokChar c then [[c]] else []
  | c :: d :: rest =>
    let r := numTokens (d :: rest)
    if isNumTokChar c then
      if isNumTokChar d then
        match r with
        | t :: ts => (c :: t) :: ts
        | [] => [[c]]
      else [c] :: r
    else r

/-- Consecutive pairs `coords[i], coords[i+1]` for even `i`; a trailing
unpaired token gets `none` as its partner (JS `undefined`). -/
def pairUp {α : Type} : List α → List (α × Option α)
  | [] => []
  | [a] => [(a, none)]
  | a :: b :: rest => (a, some b) :: pairUp rest

/-- Coordinate pairs extracted from path/polygon/polyline data (lines 600-611):
a pair contributes only when both halves parse (`isNaN` pairs are skipped). -/
def coordPts (s : List Char) : List (ℚ × ℚ) :=
  (pairUp (numTokens s)).filterMap (fun pr =>
    match jsParseFloatL pr.1, pr.2.bind jsParseFloatL with
    | some x, some y => some (x, y)
    | _, _ => none)

/-- Local points of a `path` (lines 595-612): all parseable coordinate pairs of
the `d` attribute. -/
def pathLocalPts (a : List (String × String)) (_content : String) : List (ℚ × ℚ) :=
  coordPts (((objGet a "d").getD "").toList)

/-- Local points of a `polygon` (lines 615-631). -/
def polygonLocalPts (a : List (String × String)) (_content : String) : List (ℚ × ℚ) :=
  coordPts (((objGet a "points").getD "").toList)

/-- Local points of a `polyline` (lines 634-650). -/
def polylineLocalPts (a : List (String × String)) (_content : String) : List (ℚ × ℚ) :=
  coordPts (((objGet a "points").getD "").toList)

/-! `element.textContent`: the concatenated text of the node and its descendants. -/
mutual
/-- Text content of a node. -/
def textContent : GNode → String
  | .mk _ _ c cs => c ++ textContentL cs
def textContentL : List GNode → String
  | [] => ""
  | n :: ns => textContent n ++ textContentL ns
end

/-! `svgElement.querySelectorAll(tag)` restricted by the `closest('marker')`
skip: for every descendant with the given tag not inside a `marker`, collect its
attributes, its `textContent`, and its `transform`-attribute chain (nearest
first, excluding the root).  Document (pre)order. -/
mutual
/-- Per-node collector for the bounding-box engine's tag queries. -/
def primsN (tag : String) (inM : Bool) (chainUp : List (Option String)) :
    GNode → List (List (String × String) × String × List (Option String))
  | .mk t a c cs =>
    let chain := objGet a "transform" :: chainUp
    let inM' := inM || t == "marker"
    (if t == tag && !inM' then [(a, c ++ textContentL cs, chain)] else []) ++
      primsL tag inM' chain cs
def primsL (tag : String) (inM : Bool) (chainUp : List (Option String)) :
    List GNode → List (List (String × String) × String × List (Option String))
  | [] => []
  | n :: ns => primsN tag inM chainUp n ++ primsL tag inM chainUp ns
end

/-- The transformed contribution points of all non-marker descendants with the
given tag. -/
def shapePts (extract : List (String × String) → String → List (ℚ × ℚ))
    (tag : String) (root : GNode) : List (ℚ × ℚ) :=
  (primsL tag false [] root.children).flatMap (fun x =>
    (extract x.1 x.2.1).map (applyT (getTransform x.2.2)))

/-- All bounding-box contribution points, in the source's visit order
(rects, circles, ellipses, texts, paths, polygons, polylines). -/
def allBoundsPts (root : GNode) : List (ℚ × ℚ) :=
  shapePts rectLocalPts "rect" root ++ shapePts circleLocalPts "circle" root ++
  shapePts ellipseLocalPts "ellipse" root ++ shapePts textLocalPts "text" root ++
  shapePts pathLocalPts "path" root ++ shapePts polygonLocalPts "polygon" root ++
  shapePts polylineLocalPts "polyline" root

/-- `calculateBoundingBox` (lines 482-654): the min/max fold over all
contribution points; `none` when nothing contributed (`hasContent === false`). -/
def calculateBoundingBox (root : GNode) : Option BBoxQ :=
  match allBoundsPts root with
  | [] => none
  | p :: ps =>
    some (ps.foldl (fun b q =>
      ⟨min b.minX q.1, min b.minY q.2, max b.maxX q.1, max b.maxY q.2⟩)
      ⟨p.1, p.2, p.1, p.2⟩)

/-- Wrapping the entire tree in one additional ancestor with
`transform="translate(10,20)"` (the composition scenario of claim C4). -/
def wrapTranslate : GNode → GNode
  | .mk t a c cs => .mk t a c [.mk "g" [("transform", "translate(10,20)")] "" cs]

/-- Shifting a bounding box by `(dx, dy)` (the claim's expected effect). -/
def shiftBox (dx dy : ℚ) (b : BBoxQ) : BBoxQ :=
  ⟨b.minX + dx, b.minY + dy, b.maxX + dx, b.maxY + dy⟩

/-- Does a `transform` attribute avoid scaling?  (Its `matrix` part, if any,
has both scale entries equal to 1.) -/
def attrNoScale (o : Option String) : Bool :=
  match o with
  | none => true
  | some s =>
    match searchMatrix s.toList with
    | none => true
    | some (a, d, _, _) => a == 1 && d == 1

mutual
/-- No node of the tree carries a scaling transform. -/
def noScalingN : GNode → Bool
  | .mk _ a _ cs => attrNoScale (objGet a "transform") && noScalingL cs
def noScalingL : List GNode → Bool
  | [] => true
  | n :: ns => noScalingN n && noScalingL ns
end

/-! ### The Marker Recolorer (inkscapeConverter.js lines 211-247 and 370-398) -/

/-- Inline-style parsing (lines 218-223 and elsewhere): split on `;`, split each
piece on `:`, trim, keep pairs with non-empty key and value. -/
def parseInlineStyle (s : String) : List (String × String) :=
  (splitChar ';' s.toList).foldl (fun acc part =>
    match (splitChar ':' part).map jsTrimL with
    | k :: v :: _ => if k ≠ [] ∧ v ≠ [] then objSet acc ⟨k⟩ ⟨v⟩ else acc
    | _ => acc) []

/-- The regex `url\(#([^)]+)\)` anchored at the current position. -/
def urlRefAt : List Char → Option String
  | 'u' :: 'r' :: 'l' :: '(' :: '#' :: r =>
    let cap := r.takeWhile (fun c => c != ')')
    if cap.isEmpty then none
    else
      match r.dropWhile (fun c => c != ')') with
      | ')' :: _ => some ⟨cap⟩
      | _ => none
  | _ => none

/-- `markerAttr.match(/url\(#([^)]+)\)/)` (lines 233-237): the first capture. -/
def urlRefSearch : List Char → Option String
  | [] => none
  | c :: rest =>
    match urlRefAt (c :: rest) with
    | some v => some v
    | none => urlRefSearch rest

/-- `extractMarkerId` (lines 233-237): `none` both for a missing attribute and
for an attribute without a `url(#...)` reference. -/
def extractMarkerId (attrVal : Option String) : Option String :=
  attrVal.bind (fun s => urlRefSearch s.toList)

/-- The marker ids referenced by a node, in the source's order
`[marker-end, marker-start, marker-mid]` with `.filter(Boolean)` (lines 239-243). -/
def markerIdsOf (a : List (String × String)) : List String :=
  [extractMarkerId (objGet a "marker-end"), extractMarkerId (objGet a "marker-start"),
   extractMarkerId (objGet a "marker-mid")].filterMap id

/-! Context collector: every strict descendant of the root in document
(pre)order with its tag, attributes, and the `class` attributes of its strict
ancestors up to and including the root (as walked by `hasAncestorWithClass`). -/
mutual
/-- Per-node context collector. -/
def ctxN (anc : List String) : GNode → List (String × List (String × String) × List String)
  | .mk t a _ cs => (t, a, anc) :: ctxL ((objGet a "class").getD "" :: anc) cs
/-- Per-forest context collector. -/
def ctxL (anc : List String) : List GNode → List (String × List (String × String) × List String)
  | [] => []
  | n :: ns => ctxN anc n ++ ctxL anc ns
end

/-- All strict descendants of the root, with ancestor-class context. -/
def ctxNodes (root : GNode) : List (String × List (String × String) × List String) :=
  ctxL [(objGet root.attrs "class").getD ""] root.children

/-- The effective stroke color of a marker-referencing node (lines 216-230):
`rgbToHex(inlineStyles.stroke || getAttribute('stroke') || cssStyles.stroke || '#333333')`. -/
def strokeColorOf (cssRules : List (String × List (String × String))) (idPrefix : String)
    (x : String × List (String × String) × List String) : String :=
  let cssStyles := getApplicableStyles x.1 ((objGet x.2.1 "class").getD "") x.2.2 cssRules idPrefix
  let inlineStyles := parseInlineStyle ((objGet x.2.1 "style").getD "")
  rgbToHex (jsOrStr (objGet inlineStyles "stroke")
    (jsOrStr (objGet x.2.1 "stroke") (jsOrStr (objGet cssStyles "stroke") "#333333")))

/-- The flattened `(markerId, strokeColor)` writes of the extraction loop
(lines 215-247), in document order.  A node without marker attributes
contributes no ids, so restricting to the `querySelectorAll('[marker-end],...')`
selection is implicit. -/
def markerPairs (cssRules : List (String × List (String × String))) (idPrefix : String)
    (root : GNode) : List (String × String) :=
  (ctxNodes root).flatMap (fun x =>
    (markerIdsOf x.2.1).map (fun i => (i, strokeColorOf cssRules idPrefix x)))

/-- The `markerColors` map (lines 212-247): last writer wins per id. -/
def markerColorsOf (cssRules : List (String × List (String × String))) (idPrefix : String)
    (root : GNode) : List (String × String) :=
  (markerPairs cssRules idPrefix root).foldl (fun m p => objSet m p.1 p.2) []

/-- `markerColors.get(marker.getAttribute('id')) || '#333333'` (lines 374-375). -/
def colorFor (colors : List (String × String)) (a : List (String × String)) : String :=
  jsOrStr ((objGet a "id").bind (fun i => objGet colors i)) "#333333"

/-- JS `removeAttribute`. -/
def removeAttr {α : Type} (o : List (String × α)) (k : String) : List (String × α) :=
  o.filter (fun kv => kv.1 != k)

/-- Is the tag one of the shape kinds recolored inside markers
(paths, polygons, circles, polylines; lines 382-386)? -/
def isShapeTag (t : String) : Bool :=
  t == "path" || t == "polygon" || t == "circle" || t == "polyline"

/-- The per-shape attribute rewrite of the marker pass (lines 388-397):
set `fill` to the color, `stroke` to `none`, remove `style`, `class`,
`stroke-width` and `stroke-dasharray`. -/
def applyMarkerOps (color : String) (a : List (String × String)) : List (String × String) :=
  removeAttr (removeAttr (removeAttr (removeAttr
    (objSet (objSet a "fill" color) "stroke" "none")
    "style") "class") "stroke-width") "stroke-dasharray"

/-! The marker pass (lines 372-398): `getElementsByTagName('marker')` walks
markers in document order, so an outer marker's rewrite of a shape happens
before that of a marker nested inside it; passing the list of enclosing marker
colors (outermost first) down the tree and folding the rewrite over that list
reproduces the sequential mutation exactly, including attribute positions. -/
mutual
/-- Marker pass on a node, given the colors of the enclosing markers. -/
def markerPassN (colors : List (String × String)) (enclosing : List String) :
    GNode → GNode
  | .mk t a c cs =>
    if t == "marker" then
      let color := colorFor colors a
      let a' := removeAttr (removeAttr a "class") "style"
      .mk t a' c (markerPassL colors (enclosing ++ [color]) cs)
    else
      let a' := if isShapeTag t then enclosing.foldl (fun ac col => applyMarkerOps col ac) a
        else a
      .mk t a' c (markerPassL colors enclosing cs)
/-- Marker pass on a forest. -/
def markerPassL (colors : List (String × String)) (enclosing : List String) :
    List GNode → List GNode
  | [] => []
  | n :: ns => markerPassN colors enclosing n :: markerPassL colors enclosing ns
end

/-- The whole marker-recoloring stage on the root. -/
def markerPass (colors : List (String × String)) (root : GNode) : GNode :=
  markerPassN colors [] root

/-- The recolored-shape postcondition of claim C5 on an attribute list. -/
def shapeRecoloredOK (color : String) (a : List (String × String)) : Bool :=
  objGet a "fill" == some color && objGet a "stroke" == some "none" &&
  (objGet a "style").isNone && (objGet a "class").isNone &&
  (objGet a "stroke-width").isNone && (objGet a "stroke-dasharray").isNone

/-! Checkers for the C5 postcondition over whole trees. -/
mutual
/-- Every shape node in the tree satisfies the recolored postcondition. -/
def shapesOKN (color : String) : GNode → Bool
  | .mk t a _ cs => (!isShapeTag t || shapeRecoloredOK color a) && shapesOKL color cs
/-- Forest version of `shapesOKN`. -/
def shapesOKL (color : String) : List GNode → Bool
  | [] => true
  | n :: ns => shapesOKN color n && shapesOKL color ns
end

mutual
/-- Every marker's contained shapes carry that marker's recorded (or default)
color, with stroke `none` and styling attributes removed. -/
def markersOKN (colors : List (String × String)) : GNode → Bool
  | .mk t a _ cs =>
    if t == "marker" then shapesOKL (colorFor colors a) cs else markersOKL colors cs
/-- Forest version of `markersOKN`. -/
def markersOKL (colors : List (String × String)) : List GNode → Bool
  | [] => true
  | n :: ns => markersOKN colors n && markersOKL colors ns
end

mutual
/-- The tree contains no `marker` node at all. -/
def noMarkerN : GNode → Bool
  | .mk t _ _ cs => t != "marker" && noMarkerL cs
/-- Forest version of `noMarkerN`. -/
def noMarkerL : List GNode → Bool
  | [] => true
  | n :: ns => noMarkerN n && noMarkerL ns
end

mutual
/-- No `marker` node of the tree contains another `marker` node. -/
def noNestedN : GNode → Bool
  | .mk t _ _ cs => if t == "marker" then noMarkerL cs else noNestedL cs
/-- Forest version of `noNestedN`. -/
def noNestedL : List GNode → Bool
  | [] => true
  | n :: ns => noNestedN n && noNestedL ns
end

/-- The marker-referencing nodes of the tree for a given id (with context). -/
def refNodes (root : GNode) (idStr : String) :
    List (String × List (String × String) × List String) :=
  (ctxNodes root).filter (fun x => (markerIdsOf x.2.1).contains idStr)

/-! ### Claim-side definitions -/

/-- The cascade semantics in the words of claim C1, evaluated over a parsed rule
map: walk the rules in order and, for each matching rule whose declarations set
the property, let it override the accumulated value (so the last matching rule
setting the property wins, and an earlier value survives when no later matching
rule overrides it). -/
def lastMatchingDecl (rules : List (String × List (String × String)))
    (tagName classAttr : String) (ancClassAttrs : List String) (idPrefix : String)
    (p : String) : Option String :=
  rules.foldl (fun acc r =>
    if selMatches r.1 tagName classAttr ancClassAttrs idPrefix then
      match lastVal r.2 p with
      | some v => some v
      | none => acc
    else acc) none

/-- A non-empty digit string whose decimal value fits in a byte (the components
of a valid `rgb(r,g,b)` color). -/
def isByteDigits (d : List Char) : Prop :=
  d ≠ [] ∧ (∀ c ∈ d, isDigitC c = true) ∧ decVal d ≤ 255

instance (d : List Char) : Decidable (isByteDigits d) := by
  unfold isByteDigits
  infer_instance

/-- A concrete tree whose ancestor chain carries a scale-2 matrix transform
(used to refute exact translation invariance of the bounding box). -/
def scaledRectTree : GNode :=
  .mk "svg" [] ""
    [.mk "g" [("transform", "matrix(2, 0, 0, 2, 0, 0)")] ""
      [.mk "rect" [("x", "0"), ("y", "0"), ("width", "1"), ("height", "1")] "" []]]

/-- A concrete scale-free tree (used as the witness for the amended C4). -/
def plainRectTree : GNode :=
  .mk "svg" [] ""
    [.mk "rect" [("x", "5"), ("y", "6"), ("width", "10"), ("height", "20")] "" []]

/-- A concrete document with one marker definition (`arrow1`) and one path
referencing it through `marker-end` with an inline green stroke (the scenario
of claim C5). -/
def markerExTree : GNode :=
  .mk "svg" [] ""
    [.mk "defs" [] ""
      [.mk "marker" [("id", "arrow1")] ""
        [.mk "path" [("d", "M0,0L10,5"), ("class", "arrowHead"), ("stroke-width", "2")]
          "" []]],
     .mk "path" [("marker-end", "url(#arrow1)"), ("style", "stroke: rgb(0,128,0);")] "" []]

/-- No two adjacent whitespace characters (the shape of whitespace-collapsed
text, used to show word wrapping loses no word). -/
def wsSeparated (l : List Char) : Prop :=
  List.Chain' (fun a b => isWsChar a = false ∨ isWsChar b = false) l

theorem objGet_nil {α : Type} (k : String) : objGet ([] : List (String × α)) k = none := rfl

theorem objGet_cons {α : Type} (kv : String × α) (rest : List (String × α)) (k : String) :
    objGet (kv :: rest) k = if kv.1 = k then some kv.2 else objGet rest k := by
  by_cases h : kv.1 = k <;> simp [objGet, List.find?_cons, h]

theorem objGet_objSet {α : Type} (o : List (String × α)) (k k' : String) (v : α) :
    objGet (objSet o k v) k' = if k' = k then some v else objGet o k' := by
  induction o with
  | nil =>
    show objGet [(k, v)] k' = _
    rw [objGet_cons]
    by_cases h : k' = k <;> simp [h, objGet_nil]
    intro h'
    exact (h h'.symm).elim
  | cons kv rest ih =>
    by_cases hk : kv.1 = k
    · show objGet (if kv.1 == k then (k, v) :: rest else _) k' = _
      simp only [hk, beq_self_eq_true, if_true]
      rw [objGet_cons, objGet_cons]
      by_cases h : k' = k
      · simp [h, hk]
      · have h2 : ¬ k = k' := fun h' => h h'.symm
        simp [h, h2, hk]
    · show objGet (if kv.1 == k then _ else kv :: objSet rest k v) k' = _
      have hb : (kv.1 == k) = false := by simp [hk]
      simp only [hb, Bool.false_eq_true, if_false]
      rw [objGet_cons, ih, objGet_cons]
      by_cases h : kv.1 = k'
      · have h2 : ¬ k' = k := fun h' => hk (h.trans h')
        simp [h, h2]
      · simp [h]

theorem lastVal_nil {α : Type} (k : String) : lastVal ([] : List (String × α)) k = none := rfl

theorem lastVal_cons {α : Type} (kv : String × α) (rest : List (String × α)) (k : String) :
    lastVal (kv :: rest) k =
      (lastVal rest k).or (if kv.1 = k then some kv.2 else none) := by
  unfold lastVal
  rw [List.reverse_cons, List.find?_append]
  cases h : List.find? (fun x => x.1 == k) rest.reverse with
  | none =>
    by_cases hk : kv.1 = k
    · simp [List.find?, hk]
    · have hb : (kv.1 == k) = false := by simp [hk]
      simp [List.find?, hb, hk]
  | some v => simp

theorem objGet_objAssign (t s : List (String × String)) (k : String) :
    objGet (objAssign t s) k = (lastVal s k).or (objGet t k) := by
  induction s generalizing t with
  | nil => simp [objAssign, lastVal_nil]
  | cons kv rest ih =>
    have step : objAssign t (kv :: rest) = objAssign (objSet t kv.1 kv.2) rest := rfl
    rw [step, ih, lastVal_cons, objGet_objSet]
    cases h : lastVal rest k with
    | some v => simp
    | none =>
      by_cases hk : kv.1 = k
      · simp [hk.symm, Option.or]
      · have h2 : ¬ k = kv.1 := fun h' => hk h'.symm
        simp [h2, hk]

/-- C1 (counterexample): for the stylesheet `.a{stroke:black} .a{fill:blue}` and
a node of class `a`, the first rule matches the node and sets `stroke`, the
later rule does not override `stroke`, yet the resolved declarations are just
`fill: blue` — the property set by the earlier matching rule does not survive,
because the rule map is keyed by selector text and the later `.a` entry
replaced the earlier one. -/
theorem cascadeSameSelectorDrops :
    parseCSSRules ".a\x7bstroke:black\x7d .a\x7bfill:blue\x7d" = [(".a", [("fill", "blue")])] ∧
    selMatches ".a" "rect" "a" [] "" = true ∧
    parseDeclarations "stroke:black".toList = [("stroke", "black")] ∧
    getApplicableStyles "rect" "a" []
      (parseCSSRules ".a\x7bstroke:black\x7d .a\x7bfill:blue\x7d") "" = [("fill", "blue")] ∧
    objGet (getApplicableStyles "rect" "a" []
      (parseCSSRules ".a\x7bstroke:black\x7d .a\x7bfill:blue\x7d") "") "stroke" = none :=
  ⟨by decide, by decide, by decide, by decide, by decide⟩

/-- C1 (amended): over the parsed rule map, resolution is per-property
last-matching-entry-wins, a property set by an earlier matching map entry
surviving whenever no later matching entry sets it; and the spec's example
`.a{fill:red}` then `.a{fill:blue}` resolves to `fill: blue` (the later rule's
entry replaced the earlier one in the selector-keyed map). -/
theorem cascadeLastWins :
    (∀ (rules : List (String × List (String × String))) (tagName classAttr : String)
      (ancClassAttrs : List String) (idPrefix : String) (p : String),
      objGet (getApplicableStyles tagName classAttr ancClassAttrs rules idPrefix) p =
        lastMatchingDecl rules tagName classAttr ancClassAttrs idPrefix p) ∧
    objGet (getApplicableStyles "rect" "a" []
      (parseCSSRules ".a\x7bfill:red\x7d .a\x7bfill:blue\x7d") "") "fill" = some "blue" := by
  constructor
  · intro rules tagName classAttr ancClassAttrs idPrefix p
    unfold getApplicableStyles lastMatchingDecl
    suffices h : ∀ (styles : List (String × String)),
        objGet (rules.foldl (fun styles rule =>
          if selMatches rule.1 tagName classAttr ancClassAttrs idPrefix then
            objAssign styles rule.2
          else styles) styles) p =
        rules.foldl (fun acc r =>
          if selMatches r.1 tagName classAttr ancClassAttrs idPrefix then
            match lastVal r.2 p with
            | some v => some v
            | none => acc
          else acc) (objGet styles p) from h []
    induction rules with
    | nil => intro styles; rfl
    | cons r rest ih =>
      intro styles
      by_cases hm : selMatches r.1 tagName classAttr ancClassAttrs idPrefix
      · simp only [List.foldl_cons, hm, if_true]
        rw [ih (objAssign styles r.2), objGet_objAssign]
        cases h : lastVal r.2 p with
        | some v => simp [Option.or]
        | none => simp [Option.or]
      · simp only [List.foldl_cons, hm, if_false]
        exact ih styles
  · decide

/-- The loop over the earlier components of a descendant selector (lines 88-100)
lets only class components contribute: components that are ID selectors (whether
or not they reference the root id) are skipped. -/
theorem descendantPartCond (idPrefix : String) (ancClassAttrs : List String) :
    (fun (part : List Char) =>
      if part.head? == some '#' && part != '#' :: idPrefix.toList then false
      else if part == '#' :: idPrefix.toList then false
      else part.head? == some '.' && hasAncestorWithClass ancClassAttrs (part.drop 1)) =
    (fun part => part.head? == some '.' && hasAncestorWithClass ancClassAttrs (part.drop 1)) := by
  funext part
  by_cases h1 : part.head? = some '#'
  · have hr : (part.head? == some '.') = false := by simp [h1]
    by_cases h2 : part = '#' :: idPrefix.toList
    · simp [h1, h2, hr]
    · simp [h1, h2, hr]
  · have h2 : part ≠ '#' :: idPrefix.toList := by
      intro h'
      exact h1 (by rw [h']; rfl)
    simp [h1, h2]
    exact fun _ _ => h2

/-- C2: a space-separated descendant selector matches exactly when the node
matches the last component and some strict ancestor carries the class named by
an earlier class-selector component; earlier ID-selector components never
contribute to the requirement. -/
theorem descendantSelectorMatches (sel tagName classAttr idPrefix : String)
    (ancClassAttrs : List String) (earlier : List (List Char)) (lastP : List Char)
    (hsp : sel.toList.contains ' ' = true)
    (hsplit : splitWsR sel.toList = earlier ++ [lastP]) :
    selMatches sel tagName classAttr ancClassAttrs idPrefix =
      ((lastP == tagName.toList ||
        (lastP.head? == some '.' && (splitWsR classAttr.toList).contains (lastP.drop 1))) &&
       earlier.any (fun part =>
         part.head? == some '.' && hasAncestorWithClass ancClassAttrs (part.drop 1))) := by
  unfold selMatches
  simp only [hsp, if_true, hsplit, List.getLast?_concat, Option.getD_some,
    List.dropLast_concat, descendantPartCond]

/-- C6: with a non-null bounding box, canvas fitting sets the viewBox to
`(minX − 10, minY − 10, ⌈contentWidth⌉ + 20, ⌈contentHeight⌉ + 20)` and the
explicit pixel `width`/`height` attributes to those same integer values
(`⌈w + 20⌉ = ⌈w⌉ + 20` since the padding is an integer). -/
theorem canvasFitFormula (b : BBoxQ) :
    fitCanvas b = ⟨b.minX - 10, b.minY - 10, ⌈b.maxX - b.minX⌉ + 20, ⌈b.maxY - b.minY⌉ + 20,
      ⌈b.maxX - b.minX⌉ + 20, ⌈b.maxY - b.minY⌉ + 20⟩ := by
  have hw : ∀ w : ℚ, ⌈w + 10 * 2⌉ = ⌈w⌉ + 20 := by
    intro w
    rw [show ((10 : ℚ) * 2) = ((20 : ℤ) : ℚ) by norm_num, Int.ceil_add_int]
  unfold fitCanvas
  simp only [hw]

/-- Witness for C2: `.cluster rect` matches a `rect` nested under a
`cluster`-classed ancestor (and the match equation holds at this instance). -/
theorem descendantSelectorWitness :
    (".cluster rect".toList.contains ' ' = true) ∧
    (splitWsR ".cluster rect".toList = [".cluster".toList] ++ ["rect".toList]) ∧
    selMatches ".cluster rect" "rect" "" ["cluster x"] "m1" =
      (("rect".toList == "rect".toList ||
        ("rect".toList.head? == some '.' &&
          (splitWsR "".toList).contains ("rect".toList.drop 1))) &&
       [".cluster".toList].any (fun part =>
         part.head? == some '.' && hasAncestorWithClass ["cluster x"] (part.drop 1))) :=
  ⟨by decide, by decide,
    descendantSelectorMatches ".cluster rect" "rect" "" "m1" ["cluster x"]
      [".cluster".toList] "rect".toList (by decide) (by decide)⟩

/-! ### Claim C3: the Color Normalizer -/

theorem takeWhile_append_all {p : Char → Bool} :
    ∀ (l m : List Char), (∀ c ∈ l, p c = true) →
      (l ++ m).takeWhile p = l ++ m.takeWhile p
  | [], _, _ => by simp
  | c :: rest, m, h => by
    have hc : p c = true := h c (by simp)
    simp [List.takeWhile_cons, hc, takeWhile_append_all rest m (fun x hx => h x (by simp [hx]))]

theorem dropWhile_append_all {p : Char → Bool} :
    ∀ (l m : List Char), (∀ c ∈ l, p c = true) →
      (l ++ m).dropWhile p = m.dropWhile p
  | [], _, _ => by simp
  | c :: rest, m, h => by
    have hc : p c = true := h c (by simp)
    simp [List.dropWhile_cons, hc, dropWhile_append_all rest m (fun x hx => h x (by simp [hx]))]

theorem digit_not_ws (c : Char) (h : isDigitC c = true) : isWsChar c = false := by
  simp only [isWsChar, Bool.or_eq_false_iff, beq_eq_false_iff_ne]
  refine ⟨⟨⟨⟨⟨?_, ?_⟩, ?_⟩, ?_⟩, ?_⟩, ?_⟩ <;> rintro rfl <;> exact absurd h (by decide)

theorem hexVal_hexChar (k : ℕ) (h : k < 16) : hexVal (hexChar k) = k := by
  interval_cases k <;> decide

theorem isLowerHexDigit_hexChar (k : ℕ) (h : k < 16) :
    isLowerHexDigit (hexChar k) = true := by
  interval_cases k <;> decide

theorem pad2_natToHex (n : ℕ) (h : n < 256) :
    pad2 (natToHex n) = [hexChar (n / 16), hexChar (n % 16)] := by
  by_cases h16 : n < 16
  · have hx : natToHex n = [hexChar n] := by simp [natToHex, natToHexAux, h16]
    have hd : n / 16 = 0 := Nat.div_eq_of_lt h16
    have hm : n % 16 = n := Nat.mod_eq_of_lt h16
    rw [hx, hd, hm]
    simp [pad2]
    rfl
  · have h2 : n / 16 < 16 := by omega
    have hx : natToHex n = natToHexAux n (n / 16) ++ [hexChar (n % 16)] := by
      simp [natToHex, natToHexAux, h16]
    obtain ⟨m, rfl⟩ : ∃ m, n = m + 1 := ⟨n - 1, by omega⟩
    have h3 : natToHexAux (m + 1) ((m + 1) / 16) = [hexChar ((m + 1) / 16)] := by
      simp [natToHexAux, h2]
    rw [hx, h3]
    simp [pad2]

/-- Reduction of the anchored rgb regex past the literal `rgb(` prefix. -/
theorem rgbMatch_paren (X : List Char) :
    rgbMatch ('r' :: 'g' :: 'b' :: '(' :: X) =
      (let d1 := X.takeWhile isDigitC
       if d1.isEmpty then none else
       match X.dropWhile isDigitC with
       | ',' :: r4 =>
         let r5 := r4.dropWhile isWsChar
         let d2 := r5.takeWhile isDigitC
         if d2.isEmpty then none else
         match r5.dropWhile isDigitC with
         | ',' :: r7 =>
           let r8 := r7.dropWhile isWsChar
           let d3 := r8.takeWhile isDigitC
           if d3.isEmpty then none else some (d1, d2, d3)
         | _ => none
       | _ => none) := rfl

/-- The rgb regex accepts every well-formed `rgb(r,g,b` prefix and captures the
three digit strings. -/
theorem rgbMatch_valid (d1 d2 d3 w1 w2 : List Char)
    (h1 : d1 ≠ []) (h2 : d2 ≠ []) (h3 : d3 ≠ [])
    (hd1 : ∀ c ∈ d1, isDigitC c = true) (hd2 : ∀ c ∈ d2, isDigitC c = true)
    (hd3 : ∀ c ∈ d3, isDigitC c = true)
    (hw1 : ∀ c ∈ w1, isWsChar c = true) (hw2 : ∀ c ∈ w2, isWsChar c = true) :
    rgbMatch ('r' :: 'g' :: 'b' :: '(' ::
        (d1 ++ ',' :: (w1 ++ (d2 ++ ',' :: (w2 ++ (d3 ++ [')'])))))) =
      some (d1, d2, d3) := by
  obtain ⟨a2, t2, rfl⟩ := List.exists_cons_of_ne_nil h2
  obtain ⟨a3, t3, rfl⟩ := List.exists_cons_of_ne_nil h3
  have hcomma : isDigitC ',' = false := by decide
  have hparen : isDigitC ')' = false := by decide
  rw [rgbMatch_paren]
  have e1 : (d1 ++ ',' :: (w1 ++ ((a2 :: t2) ++ ',' :: (w2 ++ ((a3 :: t3) ++ [')']))))).takeWhile
      isDigitC = d1 := by
    rw [takeWhile_append_all _ _ hd1]
    simp [List.takeWhile_cons, hcomma]
  have e2 : (d1 ++ ',' :: (w1 ++ ((a2 :: t2) ++ ',' :: (w2 ++ ((a3 :: t3) ++ [')']))))).dropWhile
      isDigitC = ',' :: (w1 ++ ((a2 :: t2) ++ ',' :: (w2 ++ ((a3 :: t3) ++ [')'])))) := by
    rw [dropWhile_append_all _ _ hd1]
    simp [List.dropWhile_cons, hcomma]
  rw [e1, e2]
  have hne1 : d1.isEmpty = false := by
    cases d1 with
    | nil => exact absurd rfl h1
    | cons a t => rfl
  simp only [hne1, Bool.false_eq_true, if_false]
  have ha2 : isDigitC a2 = true := hd2 a2 (by simp)
  have e3 : (w1 ++ ((a2 :: t2) ++ ',' :: (w2 ++ ((a3 :: t3) ++ [')'])))).dropWhile isWsChar =
      (a2 :: t2) ++ ',' :: (w2 ++ ((a3 :: t3) ++ [')'])) := by
    rw [dropWhile_append_all _ _ hw1]
    simp [List.dropWhile_cons, digit_not_ws a2 ha2]
  have e4 : ((a2 :: t2) ++ ',' :: (w2 ++ ((a3 :: t3) ++ [')']))).takeWhile isDigitC =
      a2 :: t2 := by
    rw [takeWhile_append_all _ _ hd2]
    simp [List.takeWhile_cons, hcomma]
  have e5 : ((a2 :: t2) ++ ',' :: (w2 ++ ((a3 :: t3) ++ [')']))).dropWhile isDigitC =
      ',' :: (w2 ++ ((a3 :: t3) ++ [')'])) := by
    rw [dropWhile_append_all _ _ hd2]
    simp [List.dropWhile_cons, hcomma]
  simp only [e3, e4, e5]
  have ha3 : isDigitC a3 = true := hd3 a3 (by simp)
  have e6 : (w2 ++ ((a3 :: t3) ++ [')'])).dropWhile isWsChar = (a3 :: t3) ++ [')'] := by
    rw [dropWhile_append_all _ _ hw2]
    simp [List.dropWhile_cons, digit_not_ws a3 ha3]
  have e7 : ((a3 :: t3) ++ [')']).takeWhile isDigitC = a3 :: t3 := by
    rw [takeWhile_append_all _ _ hd3]
    simp [List.takeWhile_cons, hparen]
  simp only [e6, e7]
  rfl

/-- `rgbToHex` in the match case (the `''`/`'none'` guards cannot fire when the
string starts with `r`). -/
theorem rgbToHex_of_match (s : String) (d1 d2 d3 : List Char)
    (hhead : s.toList.head? = some 'r')
    (hm : rgbMatch s.toList = some (d1, d2, d3)) :
    rgbToHex s = ⟨'#' :: (pad2 (natToHex (decVal d1)) ++ pad2 (natToHex (decVal d2)) ++
      pad2 (natToHex (decVal d3)))⟩ := by
  have hs1 : (s == "") = false := by
    rw [beq_eq_false_iff_ne]
    intro h
    subst h
    simp at hhead
  have hs2 : (s == "none") = false := by
    rw [beq_eq_false_iff_ne]
    intro h
    subst h
    simp at hhead
  unfold rgbToHex
  rw [hs1, hs2]
  simp only [Bool.or_self, Bool.false_eq_true, if_false, hm]

/-- C3 (counterexample): `rgb(51,51,51` (no closing parenthesis) is not a valid
color string, yet the normalizer converts it to `#333333` instead of returning
it unchanged — the regex only requires a matching prefix. -/
theorem rgbToHexConvertsMalformed :
    rgbToHex "rgb(51,51,51" = "#333333" ∧ rgbToHex "rgb(51,51,51" ≠ "rgb(51,51,51" :=
  ⟨by decide, by decide⟩

/-- C3 (amended): for every well-formed `rgb(r,g,b)` string with byte-sized
components, the normalizer yields a 7-character `#`-prefixed lowercase-hex
string whose three digit pairs decode back to exactly `r`, `g`, `b`; any input
whose prefix fails the rgb pattern (including `none` and `''`) passes through
unchanged; inputs that match the prefix are converted even when the full string
is malformed. -/
theorem rgbToHexRoundTrip :
    (∀ d1 d2 d3 w1 w2 : List Char,
      isByteDigits d1 → isByteDigits d2 → isByteDigits d3 →
      (∀ c ∈ w1, isWsChar c = true) → (∀ c ∈ w2, isWsChar c = true) →
      ∃ a1 a2 b1 b2 c1 c2 : Char,
        (rgbToHex ⟨'r' :: 'g' :: 'b' :: '(' ::
            (d1 ++ ',' :: (w1 ++ (d2 ++ ',' :: (w2 ++ (d3 ++ [')'])))))⟩).toList =
          ['#', a1, a2, b1, b2, c1, c2] ∧
        (∀ c ∈ [a1, a2, b1, b2, c1, c2], isLowerHexDigit c = true) ∧
        16 * hexVal a1 + hexVal a2 = decVal d1 ∧
        16 * hexVal b1 + hexVal b2 = decVal d2 ∧
        16 * hexVal c1 + hexVal c2 = decVal d3) ∧
    (∀ s : String, rgbMatch s.toList = none → rgbToHex s = s) := by
  constructor
  · intro d1 d2 d3 w1 w2 h1 h2 h3 hw1 hw2
    obtain ⟨hne1, hd1, hv1⟩ := h1
    obtain ⟨hne2, hd2, hv2⟩ := h2
    obtain ⟨hne3, hd3, hv3⟩ := h3
    refine ⟨hexChar (decVal d1 / 16), hexChar (decVal d1 % 16),
      hexChar (decVal d2 / 16), hexChar (decVal d2 % 16),
      hexChar (decVal d3 / 16), hexChar (decVal d3 % 16), ?_, ?_, ?_, ?_, ?_⟩
    · have hm := rgbMatch_valid d1 d2 d3 w1 w2 hne1 hne2 hne3 hd1 hd2 hd3 hw1 hw2
      rw [rgbToHex_of_match ⟨'r' :: 'g' :: 'b' :: '(' ::
        (d1 ++ ',' :: (w1 ++ (d2 ++ ',' :: (w2 ++ (d3 ++ [')'])))))⟩ d1 d2 d3 rfl hm]
      show '#' :: (pad2 (natToHex (decVal d1)) ++ pad2 (natToHex (decVal d2)) ++
        pad2 (natToHex (decVal d3))) = _
      rw [pad2_natToHex _ (by omega), pad2_natToHex _ (by omega), pad2_natToHex _ (by omega)]
      rfl
    · intro c hc
      simp only [List.mem_cons, List.not_mem_nil, or_false] at hc
      rcases hc with rfl | rfl | rfl | rfl | rfl | rfl <;>
        exact isLowerHexDigit_hexChar _ (by omega)
    · rw [hexVal_hexChar _ (by omega), hexVal_hexChar _ (by omega)]
      omega
    · rw [hexVal_hexChar _ (by omega), hexVal_hexChar _ (by omega)]
      omega
    · rw [hexVal_hexChar _ (by omega), hexVal_hexChar _ (by omega)]
      omega
  · intro s hm
    cases hb : (s == "" || s == "none") <;>
      simp [rgbToHex, hb, show rgbMatch s.data = none from hm]

/-- Witness for C3: instantiating the round-trip at `rgb(51,51,51)` (digit
strings `51`, no whitespace). -/
theorem rgbToHexRoundTripWitness :
    isByteDigits ['5', '1'] ∧ (∀ c ∈ ([] : List Char), isWsChar c = true) ∧
    (∃ a1 a2 b1 b2 c1 c2 : Char,
      (rgbToHex ⟨'r' :: 'g' :: 'b' :: '(' ::
          (['5', '1'] ++ ',' :: (([] : List Char) ++ (['5', '1'] ++ ',' ::
            (([] : List Char) ++ (['5', '1'] ++ [')'])))))⟩).toList =
        ['#', a1, a2, b1, b2, c1, c2] ∧
      (∀ c ∈ [a1, a2, b1, b2, c1, c2], isLowerHexDigit c = true) ∧
      16 * hexVal a1 + hexVal a2 = decVal ['5', '1'] ∧
      16 * hexVal b1 + hexVal b2 = decVal ['5', '1'] ∧
      16 * hexVal c1 + hexVal c2 = decVal ['5', '1']) :=
  ⟨by decide, by decide,
    rgbToHexRoundTrip.1 ['5', '1'] ['5', '1'] ['5', '1'] [] []
      (by decide) (by decide) (by decide) (by decide) (by decide)⟩

/-! ### Claims C8 and C10: word wrapping -/

theorem splitChar_pieces_nospace (sep : Char) :
    ∀ (l : List Char), ∀ p ∈ splitChar sep l, p.all (fun c => c != sep) = true
  | [], p, hp => by
    simp [splitChar] at hp
    simp [hp]
  | c :: rest, p, hp => by
    have ih := splitChar_pieces_nospace sep rest
    cases hs : splitChar sep rest with
    | nil => simp [splitChar, hs] at hp; simp [hp]
    | cons q qs =>
      by_cases hc : c == sep
      · simp only [splitChar, hs, hc, if_true, List.mem_cons] at hp
        rcases hp with rfl | rfl | hp
        · rfl
        · exact ih p (by rw [hs]; simp)
        · exact ih p (by rw [hs]; simp [hp])
      · simp only [splitChar, hs, hc, Bool.false_eq_true, if_false, List.mem_cons] at hp
        rcases hp with rfl | hp
        · have hq := ih q (by rw [hs]; simp)
          have hcs : c ≠ sep := fun h => hc (by simp [h])
          simp [List.all_cons, hq, hcs]
        · exact ih p (by rw [hs]; simp [hp])

theorem splitChar_ne_nil (sep : Char) (l : List Char) : splitChar sep l ≠ [] := by
  cases l with
  | nil => simp [splitChar]
  | cons c rest =>
    cases hs : splitChar sep rest with
    | nil => simp [splitChar, hs]
    | cons q qs => by_cases hc : c == sep <;> simp [splitChar, hs, hc]

theorem joinSp_splitChar : ∀ (l : List Char), joinSp (splitChar ' ' l) = l
  | [] => rfl
  | c :: rest => by
    have ih := joinSp_splitChar rest
    cases hs : splitChar ' ' rest with
    | nil => exact absurd hs (splitChar_ne_nil ' ' rest)
    | cons q qs =>
      rw [hs] at ih
      by_cases hc : c == ' '
      · have : c = ' ' := by exact beq_iff_eq.mp hc
        subst this
        simp only [splitChar, hs, beq_self_eq_true, if_true]
        cases qs with
        | nil => simp [joinSp] at ih ⊢; exact ih
        | cons r rs => simp [joinSp] at ih ⊢; exact ih
      · simp only [splitChar, hs, hc, Bool.false_eq_true, if_false]
        cases qs with
        | nil => simp [joinSp] at ih ⊢; rw [ih]
        | cons r rs => simp [joinSp] at ih ⊢; exact ih

theorem dropWhile_head_false {p : Char → Bool} :
    ∀ (l : List Char) (c : Char), (l.dropWhile p).head? = some c → p c = false
  | [], c, h => by simp at h
  | a :: rest, c, h => by
    by_cases ha : p a
    · rw [List.dropWhile_cons_of_pos ha] at h
      exact dropWhile_head_false rest c h
    · rw [List.dropWhile_cons_of_neg ha] at h
      simp at h
      subst h
      cases hpa : p a with
      | false => rfl
      | true => exact absurd hpa ha

theorem collapseWs_head_nonws (d : Char) (rest : List Char) (h : isWsChar d = false) :
    (collapseWsL (d :: rest)).head? = some d := by
  cases rest with
  | nil => simp [collapseWsL, h]
  | cons e rest2 => simp [collapseWsL, h]

theorem collapseWs_sep : ∀ (l : List Char), wsSeparated (collapseWsL l)
  | [] => by simp [collapseWsL, wsSeparated]
  | [c] => by
    by_cases h : isWsChar c <;> simp [collapseWsL, h, wsSeparated]
  | c :: d :: rest => by
    have ih := collapseWs_sep (d :: rest)
    by_cases h1 : isWsChar c
    · by_cases h2 : isWsChar d
      · simpa [collapseWsL, h1, h2, wsSeparated] using ih
      · have hh := collapseWs_head_nonws d rest (Bool.of_not_eq_true h2)
        simp only [collapseWsL, h1, h2, Bool.and_false, Bool.and_true, Bool.false_eq_true,
          if_false, if_true]
        unfold wsSeparated at ih ⊢
        rw [List.chain'_cons']
        refine ⟨?_, ih⟩
        intro b hb
        rw [hh] at hb
        simp at hb
        subst hb
        right
        exact Bool.of_not_eq_true h2
    · have hcol : collapseWsL (c :: d :: rest) =
          c :: collapseWsL (d :: rest) := by
        simp [collapseWsL, Bool.of_not_eq_true h1]
      rw [hcol]
      unfold wsSeparated at ih ⊢
      rw [List.chain'_cons']
      exact ⟨fun b _ => Or.inl (Bool.of_not_eq_true h1), ih⟩

theorem wsSeparated_suffix {l l' : List Char} (h : wsSeparated l) (hs : l' <:+ l) :
    wsSeparated l' := List.Chain'.suffix h hs

theorem wsSeparated_reverse {l : List Char} (h : wsSeparated l) : wsSeparated l.reverse := by
  unfold wsSeparated at h ⊢
  rw [List.chain'_reverse]
  exact h.imp (fun a b hab => hab.symm)

theorem jsTrimL_sep (l : List Char) (h : wsSeparated l) : wsSeparated (jsTrimL l) := by
  unfold jsTrimL
  exact wsSeparated_reverse (wsSeparated_suffix
    (wsSeparated_reverse (wsSeparated_suffix h (List.dropWhile_suffix isWsChar)))
    (List.dropWhile_suffix isWsChar))

theorem jsTrimL_getLast (l : List Char) (c : Char) (h : (jsTrimL l).getLast? = some c) :
    isWsChar c = false := by
  unfold jsTrimL at h
  rw [List.getLast?_reverse] at h
  exact dropWhile_head_false _ c h

theorem jsTrimL_head (l : List Char) (c : Char) (h : (jsTrimL l).head? = some c) :
    isWsChar c = false := by
  unfold jsTrimL at h
  rw [List.head?_reverse] at h
  set B := ((l.dropWhile isWsChar).reverse.dropWhile isWsChar) with hB
  have hBne : B ≠ [] := by
    intro hb
    rw [hb] at h
    simp at h
  have hsuf : B <:+ (l.dropWhile isWsChar).reverse := List.dropWhile_suffix isWsChar
  obtain ⟨pre, hpre⟩ := hsuf
  have : (l.dropWhile isWsChar).reverse.getLast? = some c := by
    rw [← hpre, List.getLast?_append_of_ne_nil _ hBne, h]
  rw [List.getLast?_reverse] at this
  exact dropWhile_head_false _ c this

theorem splitChar_sp_all_ne :
    ∀ (l : List Char), l ≠ [] → l.head? ≠ some ' ' → l.getLast? ≠ some ' ' →
      List.Chain' (fun a b => ¬(a = ' ' ∧ b = ' ')) l →
      ∀ p ∈ splitChar ' ' l, p ≠ []
  | [], h0, _, _, _ => absurd rfl h0
  | [c], _, h1, _, _ => by
    have hc : ¬(c == ' ') = true := by
      simp only [beq_iff_eq]
      intro h
      exact h1 (by rw [h]; rfl)
    intro p hp
    simp only [splitChar, hc, Bool.false_eq_true, if_false, List.mem_cons,
      List.not_mem_nil, or_false] at hp
    subst hp
    simp
  | c :: d :: rest, _, h1, h2, h3 => by
    have hcne : c ≠ ' ' := fun h => h1 (by rw [h]; rfl)
    have hc : ¬(c == ' ') = true := by simp [hcne]
    by_cases hd : d = ' '
    · subst hd
      cases rest with
      | nil => exact absurd rfl h2
      | cons e rest2 =>
        have he : e ≠ ' ' := by
          have := (List.chain'_cons'.mp (List.Chain'.tail h3)).1 e rfl
          intro h
          exact this ⟨rfl, h⟩
        have hrec := splitChar_sp_all_ne (e :: rest2) (by simp)
          (by simp [he]) (by
            have : (c :: ' ' :: e :: rest2).getLast? = (e :: rest2).getLast? := by
              rw [List.getLast?_cons_cons, List.getLast?_cons_cons]
            rw [← this]; exact h2)
          ((List.Chain'.tail (List.Chain'.tail h3)))
        intro p hp
        have s1 : splitChar ' ' (' ' :: e :: rest2) = [] :: splitChar ' ' (e :: rest2) := by
          show (match splitChar ' ' (e :: rest2) with
                | [] => [[]]
                | p :: ps => if ' ' == ' ' then [] :: p :: ps else (' ' :: p) :: ps) = _
          cases hs2 : splitChar ' ' (e :: rest2) with
          | nil => exact absurd hs2 (splitChar_ne_nil ' ' (e :: rest2))
          | cons q qs => simp
        have hsplit : splitChar ' ' (c :: ' ' :: e :: rest2) =
            [c] :: splitChar ' ' (e :: rest2) := by
          show (match splitChar ' ' (' ' :: e :: rest2) with
                | [] => [[]]
                | p :: ps => if c == ' ' then [] :: p :: ps else (c :: p) :: ps) = _
          rw [s1]
          simp [hc]
        rw [hsplit] at hp
        rcases List.mem_cons.mp hp with rfl | hp
        · simp
        · exact hrec p hp
    · have hrec := splitChar_sp_all_ne (d :: rest) (by simp)
        (by simp [hd]) (by
          have : (c :: d :: rest).getLast? = (d :: rest).getLast? :=
            List.getLast?_cons_cons
          rw [← this]; exact h2)
        (List.Chain'.tail h3)
      intro p hp
      cases hs : splitChar ' ' (d :: rest) with
      | nil => exact absurd hs (splitChar_ne_nil ' ' (d :: rest))
      | cons q qs =>
        have hsplit : splitChar ' ' (c :: d :: rest) = (c :: q) :: qs := by
          show (match splitChar ' ' (d :: rest) with
                | [] => [[]]
                | p :: ps => if c == ' ' then [] :: p :: ps else (c :: p) :: ps) = _
          rw [hs]
          simp [hc]
        rw [hsplit] at hp
        rcases List.mem_cons.mp hp with rfl | hp
        · simp
        · exact hrec p (by rw [hs]; simp [hp])

theorem joinSp_ne_nil_concat :
    ∀ (L : List (List Char)), L ≠ [] → ∀ (w : List Char),
      joinSp (L ++ [w]) = joinSp L ++ ' ' :: w
  | [], h, _ => absurd rfl h
  | [x], _, w => rfl
  | x :: y :: ys, _, w => by
    have ih := joinSp_ne_nil_concat (y :: ys) (by simp) w
    show x ++ ' ' :: joinSp ((y :: ys) ++ [w]) = (x ++ ' ' :: joinSp (y :: ys)) ++ ' ' :: w
    rw [ih]
    simp

theorem joinSp_extend_last :
    ∀ (L : List (List Char)) (x y : List Char),
      joinSp (L ++ [x ++ y]) = joinSp (L ++ [x]) ++ y
  | [], x, y => rfl
  | [z], x, y => by simp [joinSp]
  | z :: w :: ws, x, y => by
    have ih := joinSp_extend_last (w :: ws) x y
    show z ++ ' ' :: joinSp ((w :: ws) ++ [x ++ y]) =
      (z ++ ' ' :: joinSp ((w :: ws) ++ [x])) ++ y
    rw [ih]
    simp

theorem joinSp_cons_flat :
    ∀ (w : List Char) (ws : List (List Char)),
      joinSp (w :: ws) = w ++ ws.flatMap (fun v => ' ' :: v)
  | w, [] => by simp [joinSp]
  | w, v :: vs => by
    have ih := joinSp_cons_flat v vs
    simp only [joinSp, List.flatMap_cons]
    rw [ih]
    simp

/-- The greedy loop never loses a word: with non-empty words and a non-empty
current line, folding extends the joined text by one space-separated word each. -/
theorem wrapFold_join (mw avg : ℚ) :
    ∀ (ws : List (List Char)) (lines : List (List Char)) (cur : List Char),
      (∀ w ∈ ws, w ≠ []) → cur ≠ [] →
      (ws.foldl (wrapStep mw avg) (lines, cur)).2 ≠ [] ∧
      joinSp ((ws.foldl (wrapStep mw avg) (lines, cur)).1 ++
          [(ws.foldl (wrapStep mw avg) (lines, cur)).2]) =
        joinSp (lines ++ [cur]) ++ ws.flatMap (fun w => ' ' :: w) := by
  intro ws
  induction ws with
  | nil => intro lines cur _ hcur; simp [hcur]
  | cons w rest ih =>
    intro lines cur hws hcur
    have hw : w ≠ [] := hws w (by simp)
    have hrest : ∀ v ∈ rest, v ≠ [] := fun v hv => hws v (by simp [hv])
    simp only [List.foldl_cons]
    by_cases hcond : ((if cur.isEmpty then w else cur ++ ' ' :: w).length : ℚ) * avg > mw ∧
        cur ≠ []
    · have hstep : wrapStep mw avg (lines, cur) w = (lines ++ [cur], w) := by
        simp only [wrapStep]
        exact if_pos hcond
      rw [hstep]
      obtain ⟨hne, hj⟩ := ih (lines ++ [cur]) w hrest hw
      refine ⟨hne, ?_⟩
      rw [hj, joinSp_ne_nil_concat (lines ++ [cur]) (by simp) w]
      simp [List.flatMap_cons]
    · have hstep : wrapStep mw avg (lines, cur) w =
          (lines, if cur.isEmpty then w else cur ++ ' ' :: w) := by
        simp only [wrapStep]
        exact if_neg hcond
      have hcurE : cur.isEmpty = false := by
        cases cur with
        | nil => exact absurd rfl hcur
        | cons a t => rfl
      rw [hstep, hcurE]
      simp only [Bool.false_eq_true, if_false]
      obtain ⟨hne, hj⟩ := ih lines (cur ++ ' ' :: w) hrest (by simp)
      refine ⟨hne, ?_⟩
      rw [hj, show cur ++ ' ' :: w = cur ++ (' ' :: w) from rfl,
        joinSp_extend_last lines cur (' ' :: w)]
      simp [List.flatMap_cons]

/-- The greedy loop keeps every pushed line within the width bound unless it is
a single (space-free) word. -/
theorem wrapFold_widths (mw avg : ℚ) :
    ∀ (ws : List (List Char)) (lines : List (List Char)) (cur : List Char),
      (∀ w ∈ ws, w.all (fun c => c != ' ') = true) →
      (∀ l ∈ lines, (l.length : ℚ) * avg ≤ mw ∨ l.all (fun c => c != ' ') = true) →
      (cur = [] ∨ (cur.length : ℚ) * avg ≤ mw ∨ cur.all (fun c => c != ' ') = true) →
      (∀ l ∈ (ws.foldl (wrapStep mw avg) (lines, cur)).1,
        (l.length : ℚ) * avg ≤ mw ∨ l.all (fun c => c != ' ') = true) ∧
      ((ws.foldl (wrapStep mw avg) (lines, cur)).2 = [] ∨
        ((ws.foldl (wrapStep mw avg) (lines, cur)).2.length : ℚ) * avg ≤ mw ∨
        (ws.foldl (wrapStep mw avg) (lines, cur)).2.all (fun c => c != ' ') = true) := by
  intro ws
  induction ws with
  | nil => intro lines cur _ hlines hcur; exact ⟨hlines, hcur⟩
  | cons w rest ih =>
    intro lines cur hws hlines hcur
    have hw : w.all (fun c => c != ' ') = true := hws w (by simp)
    have hrest : ∀ v ∈ rest, v.all (fun c => c != ' ') = true := fun v hv => hws v (by simp [hv])
    simp only [List.foldl_cons]
    by_cases hcond : ((if cur.isEmpty then w else cur ++ ' ' :: w).length : ℚ) * avg > mw ∧
        cur ≠ []
    · have hstep : wrapStep mw avg (lines, cur) w = (lines ++ [cur], w) := by
        simp only [wrapStep]
        exact if_pos hcond
      rw [hstep]
      apply ih (lines ++ [cur]) w hrest
      · intro l hl
        rcases List.mem_append.mp hl with hl | hl
        · exact hlines l hl
        · rcases hcur with rfl | hok
          · exact absurd rfl hcond.2
          · simp only [List.mem_singleton] at hl
            subst hl
            exact hok
      · exact Or.inr (Or.inr hw)
    · have hstep : wrapStep mw avg (lines, cur) w =
          (lines, if cur.isEmpty then w else cur ++ ' ' :: w) := by
        simp only [wrapStep]
        exact if_neg hcond
      rw [hstep]
      apply ih lines _ hrest hlines
      by_cases hcE : cur.isEmpty
      · simp only [hcE, if_true]
        exact Or.inr (Or.inr hw)
      · simp only [hcE, Bool.false_eq_true, if_false]
        have hcne : cur ≠ [] := by
          cases cur with
          | nil => simp at hcE
          | cons a t => simp
        have hle : ¬ ((cur ++ ' ' :: w).length : ℚ) * avg > mw := by
          intro hgt
          exact hcond ⟨by simpa [hcE] using hgt, hcne⟩
        exact Or.inr (Or.inl (le_of_not_lt hle))

/-- Canonical shape of `text.replace(/\s+/g,' ').trim()`: no boundary space and
no two adjacent spaces. -/
theorem clean_canonical (t : List Char) :
    (jsTrimL (collapseWsL t)).head? ≠ some ' ' ∧
    (jsTrimL (collapseWsL t)).getLast? ≠ some ' ' ∧
    List.Chain' (fun a b => ¬(a = ' ' ∧ b = ' ')) (jsTrimL (collapseWsL t)) := by
  refine ⟨?_, ?_, ?_⟩
  · intro h
    have := jsTrimL_head _ ' ' h
    simp [isWsChar] at this
  · intro h
    have := jsTrimL_getLast _ ' ' h
    simp [isWsChar] at this
  · have hsep := jsTrimL_sep _ (collapseWs_sep t)
    unfold wsSeparated at hsep
    refine hsep.imp (fun a b hab => ?_)
    rintro ⟨rfl, rfl⟩
    rcases hab with h | h <;> simp [isWsChar] at h

/-- The wrap fold on the words of non-empty cleaned text ends with a non-empty
current line, and joining the accumulated lines restores the cleaned text. -/
theorem wrapText_fold_clean (mw avg : ℚ) (clean : List Char) (hc : clean ≠ [])
    (hh : clean.head? ≠ some ' ') (hl : clean.getLast? ≠ some ' ')
    (hch : List.Chain' (fun a b => ¬(a = ' ' ∧ b = ' ')) clean) :
    ((splitChar ' ' clean).foldl (wrapStep mw avg) ([], [])).2 ≠ [] ∧
    joinSp (((splitChar ' ' clean).foldl (wrapStep mw avg) ([], [])).1 ++
      [((splitChar ' ' clean).foldl (wrapStep mw avg) ([], [])).2]) = clean := by
  have hne := splitChar_sp_all_ne clean hc hh hl hch
  cases hs : splitChar ' ' clean with
  | nil => exact absurd hs (splitChar_ne_nil ' ' clean)
  | cons w0 ws =>
    have hw0 : w0 ≠ [] := hne w0 (by rw [hs]; simp)
    have hws : ∀ v ∈ ws, v ≠ [] := fun v hv => hne v (by rw [hs]; simp [hv])
    have hstep0 : wrapStep mw avg ([], []) w0 = ([], w0) := by
      simp only [wrapStep]
      rw [if_neg (by simp)]
      rfl
    rw [List.foldl_cons, hstep0]
    obtain ⟨h1, h2⟩ := wrapFold_join mw avg ws [] w0 hws hw0
    refine ⟨h1, ?_⟩
    rw [h2, show ([] : List (List Char)) ++ [w0] = [w0] from rfl,
      show joinSp [w0] = w0 from rfl, ← joinSp_cons_flat w0 ws, ← hs, joinSp_splitChar]

/-- C10: wrapping returns a non-empty list of lines, and rejoining them with
single spaces restores the whitespace-collapsed, trimmed input: no word is
lost, duplicated, or reordered. -/
theorem wrapTextPreservesWords (text : String) (maxWidth : ℚ) (fontSizeStr : String) :
    wrapText text maxWidth fontSizeStr ≠ [] ∧
    joinSp ((wrapText text maxWidth fontSizeStr).map String.toList) =
      jsTrimL (collapseWsL text.toList) := by
  unfold wrapText
  by_cases hc : jsTrimL (collapseWsL text.toList) = []
  · rw [hc]
    have hstep : wrapStep maxWidth (jsOrQ (jsParseFloatL fontSizeStr.toList) 16 * 0.5)
        ([], []) [] = ([], []) := by
      simp only [wrapStep]
      rw [if_neg (by simp)]
      rfl
    simp only [splitChar, List.foldl_cons, List.foldl_nil, hstep]
    refine ⟨by simp, ?_⟩
    rfl
  · obtain ⟨hh, hl, hch⟩ := clean_canonical text.toList
    obtain ⟨h1, h2⟩ := wrapText_fold_clean maxWidth
      (jsOrQ (jsParseFloatL fontSizeStr.toList) 16 * 0.5)
      (jsTrimL (collapseWsL text.toList)) hc hh hl hch
    have hE : ((splitChar ' ' (jsTrimL (collapseWsL text.toList))).foldl
        (wrapStep maxWidth (jsOrQ (jsParseFloatL fontSizeStr.toList) 16 * 0.5))
        ([], [])).2.isEmpty = false := by
      cases h : ((splitChar ' ' (jsTrimL (collapseWsL text.toList))).foldl
          (wrapStep maxWidth (jsOrQ (jsParseFloatL fontSizeStr.toList) 16 * 0.5))
          ([], [])).2 with
      | nil => exact absurd h h1
      | cons a t => rfl
    simp only [hE, Bool.false_eq_true, if_false]
    have hLE : (((splitChar ' ' (jsTrimL (collapseWsL text.toList))).foldl
        (wrapStep maxWidth (jsOrQ (jsParseFloatL fontSizeStr.toList) 16 * 0.5))
        ([], [])).1 ++ [((splitChar ' ' (jsTrimL (collapseWsL text.toList))).foldl
        (wrapStep maxWidth (jsOrQ (jsParseFloatL fontSizeStr.toList) 16 * 0.5))
        ([], [])).2]).isEmpty = false := by
      simp
    simp only [hLE, Bool.false_eq_true, if_false]
    refine ⟨by simp, ?_⟩
    have hid : ∀ (L : List (List Char)),
        (L.map (fun l => (⟨l⟩ : String))).map String.toList = L := by
      intro L
      induction L with
      | nil => rfl
      | cons x xs ih =>
        simp only [List.map_cons]
        exact congrArg (List.cons x) ih
    rw [hid]
    exact h2

/-- C8: every line emitted by the greedy word wrap has estimated width
(`length × fontSize × 0.5`) at most the container width, except a line that is
a single word (contains no space). -/
theorem wrapTextLineWidths (text : String) (maxWidth : ℚ) (fontSizeStr : String)
    (line : String) (hmem : line ∈ wrapText text maxWidth fontSizeStr) :
    (line.length : ℚ) * (jsOrQ (jsParseFloat fontSizeStr) 16 * 0.5) ≤ maxWidth ∨
    line.toList.all (fun c => c != ' ') = true := by
  unfold wrapText at hmem
  by_cases hc : jsTrimL (collapseWsL text.toList) = []
  · rw [hc] at hmem
    have hstep : wrapStep maxWidth (jsOrQ (jsParseFloatL fontSizeStr.toList) 16 * 0.5)
        ([], []) [] = ([], []) := by
      simp only [wrapStep]
      rw [if_neg (by simp)]
      rfl
    simp only [splitChar, List.foldl_cons, List.foldl_nil, hstep] at hmem
    simp at hmem
    subst hmem
    right
    rfl
  · obtain ⟨hh, hl, hch⟩ := clean_canonical text.toList
    obtain ⟨h1, _⟩ := wrapText_fold_clean maxWidth
      (jsOrQ (jsParseFloatL fontSizeStr.toList) 16 * 0.5)
      (jsTrimL (collapseWsL text.toList)) hc hh hl hch
    have hE : ((splitChar ' ' (jsTrimL (collapseWsL text.toList))).foldl
        (wrapStep maxWidth (jsOrQ (jsParseFloatL fontSizeStr.toList) 16 * 0.5))
        ([], [])).2.isEmpty = false := by
      cases h : ((splitChar ' ' (jsTrimL (collapseWsL text.toList))).foldl
          (wrapStep maxWidth (jsOrQ (jsParseFloatL fontSizeStr.toList) 16 * 0.5))
          ([], [])).2 with
      | nil => exact absurd h h1
      | cons a t => rfl
    simp only [hE, Bool.false_eq_true, if_false] at hmem
    have hLE : (((splitChar ' ' (jsTrimL (collapseWsL text.toList))).foldl
        (wrapStep maxWidth (jsOrQ (jsParseFloatL fontSizeStr.toList) 16 * 0.5))
        ([], [])).1 ++ [((splitChar ' ' (jsTrimL (collapseWsL text.toList))).foldl
        (wrapStep maxWidth (jsOrQ (jsParseFloatL fontSizeStr.toList) 16 * 0.5))
        ([], [])).2]).isEmpty = false := by simp
    simp only [hLE, Bool.false_eq_true, if_false] at hmem
    obtain ⟨l, hlmem, rfl⟩ := List.mem_map.mp hmem
    have hwid := wrapFold_widths maxWidth (jsOrQ (jsParseFloatL fontSizeStr.toList) 16 * 0.5)
      (splitChar ' ' (jsTrimL (collapseWsL text.toList))) [] []
      (fun w hw => splitChar_pieces_nospace ' ' (jsTrimL (collapseWsL text.toList)) w hw)
      (by simp) (Or.inl rfl)
    rcases List.mem_append.mp hlmem with hin | hin
    · exact hwid.1 l hin
    · simp only [List.mem_singleton] at hin
      subst hin
      rcases hwid.2 with h | hok
      · exact absurd h h1
      · exact hok

/-- Witness for C8: wrapping `ab cd` at width 4 with font-size `16px` emits the
line `ab`, which satisfies the width-or-single-word disjunction. -/
theorem wrapTextLineWidthsWitness :
    ("ab" ∈ wrapText "ab cd" 4 "16px") ∧
    ((("ab" : String).length : ℚ) * (jsOrQ (jsParseFloat "16px") 16 * 0.5) ≤ 4 ∨
      ("ab" : String).toList.all (fun c => c != ' ') = true) := by
  have hm : mantissaQ ['1', '6', 'p', 'x'] = some (((decVal ['1', '6'] : ℕ) : ℚ), ['p', 'x']) := by
    unfold mantissaQ
    rw [show List.dropWhile isDigitC ['1', '6', 'p', 'x'] = ['p', 'x'] from by decide,
      show List.takeWhile isDigitC ['1', '6', 'p', 'x'] = ['1', '6'] from by decide]
    rfl
  have hp : jsParseFloatL "16px".toList = some 16 := by
    show jsParseFloatL ['1', '6', 'p', 'x'] = some 16
    unfold jsParseFloatL
    rw [show List.dropWhile isWsChar ['1', '6', 'p', 'x'] = ['1', '6', 'p', 'x'] from by decide]
    show (mantissaQ ['1', '6', 'p', 'x']).map (fun qr => qr.1 * (10 : ℚ) ^ expPart qr.2) =
      some 16
    rw [hm]
    show some (((decVal ['1', '6'] : ℕ) : ℚ) * (10 : ℚ) ^ expPart ['p', 'x']) = some 16
    rw [show expPart ['p', 'x'] = 0 from rfl,
      show decVal ['1', '6'] = 16 from by decide]
    norm_num
  have havg : jsOrQ (jsParseFloatL "16px".toList) 16 * 0.5 = 8 := by
    rw [hp]
    norm_num [jsOrQ]
  have hs1 : wrapStep 4 8 ([], []) ['a', 'b'] = ([], ['a', 'b']) := by
    simp only [wrapStep]
    rw [if_neg (by simp)]
    rfl
  have hs2 : wrapStep 4 8 ([], ['a', 'b']) ['c', 'd'] = ([['a', 'b']], ['c', 'd']) := by
    simp only [wrapStep]
    rw [if_pos ⟨by norm_num, by simp⟩]
    rfl
  have heval : wrapText "ab cd" 4 "16px" = ["ab", "cd"] := by
    unfold wrapText
    simp only [show jsTrimL (collapseWsL "ab cd".toList) = "ab cd".toList from by decide,
      show splitChar ' ' "ab cd".toList = [['a', 'b'], ['c', 'd']] from by decide,
      havg, List.foldl_cons, List.foldl_nil, hs1, hs2]
    rfl
  have hmem : "ab" ∈ wrapText "ab cd" 4 "16px" := by rw [heval]; simp
  exact ⟨hmem, wrapTextLineWidths "ab cd" 4 "16px" "ab" hmem⟩

/-! ### Claim C4: bounding-box behaviour under a wrapping `translate(10,20)` -/

theorem takeWhile_all {p : Char → Bool} (l : List Char) (h : ∀ c ∈ l, p c = true) :
    l.takeWhile p = l := by
  have := takeWhile_append_all l [] h
  simpa using this

theorem dropWhile_all {p : Char → Bool} (l : List Char) (h : ∀ c ∈ l, p c = true) :
    l.dropWhile p = [] := by
  have := dropWhile_append_all l [] h
  simpa using this

/-- `parseFloat` on a plain digit string is its decimal value. -/
theorem jsParseFloatL_digits (d : List Char) (hne : d ≠ [])
    (hd : ∀ c ∈ d, isDigitC c = true) :
    jsParseFloatL d = some ((decVal d : ℕ) : ℚ) := by
  obtain ⟨c, t, rfl⟩ := List.exists_cons_of_ne_nil hne
  have hc : isDigitC c = true := hd c (by simp)
  have hnws : (c :: t).dropWhile isWsChar = c :: t := by
    rw [List.dropWhile_cons_of_neg]
    rw [digit_not_ws c hc]
    simp
  unfold jsParseFloatL
  rw [hnws]
  have hcm : c ≠ '-' := by
    intro h
    rw [h] at hc
    exact absurd hc (by decide)
  have hcp : c ≠ '+' := by
    intro h
    rw [h] at hc
    exact absurd hc (by decide)
  have hmant : mantissaQ (c :: t) = some (((decVal (c :: t) : ℕ) : ℚ), []) := by
    unfold mantissaQ
    rw [takeWhile_all _ hd, dropWhile_all _ hd]
    simp [hne]
  split
  · next r heq =>
    exact absurd (List.cons.inj heq).1 hcm
  · next r heq =>
    exact absurd (List.cons.inj heq).1 hcp
  · next l1 h1 h2 =>
    rw [hmant]
    show some (((decVal (c :: t) : ℕ) : ℚ) * (10 : ℚ) ^ expPart []) = _
    rw [show expPart [] = 0 from rfl]
    norm_num

/-- The wrapper attribute `translate(10,20)` parses to a pure translation. -/
theorem searchTranslate_1020 :
    searchTranslate "translate(10,20)".toList =
      some (jsOrQ (jsParseFloatL ['1', '0']) 0, jsOrQ (jsParseFloatL ['2', '0']) 0) := rfl

theorem searchMatrix_1020 : searchMatrix "translate(10,20)".toList = none := by decide

theorem stepTransform_translate1020 (st : TState) :
    stepTransform st (some "translate(10,20)") =
      ⟨st.sx, st.sy, st.tx + 10 * st.sx, st.ty + 20 * st.sy⟩ := by
  simp only [stepTransform, searchMatrix_1020, searchTranslate_1020]
  rw [jsParseFloatL_digits ['1', '0'] (by simp) (by decide),
    jsParseFloatL_digits ['2', '0'] (by simp) (by decide)]
  have h10 : jsOrQ (some ((decVal ['1', '0'] : ℕ) : ℚ)) 0 = 10 := by
    rw [show decVal ['1', '0'] = 10 from by decide]
    norm_num [jsOrQ]
  have h20 : jsOrQ (some ((decVal ['2', '0'] : ℕ) : ℚ)) 0 = 20 := by
    rw [show decVal ['2', '0'] = 20 from by decide]
    norm_num [jsOrQ]
  rw [h10, h20]

theorem getTransform_append (ch : List (Option String)) (w : Option String) :
    getTransform (ch ++ [w]) = stepTransform (getTransform ch) w := by
  unfold getTransform
  rw [List.foldl_append]
  rfl

/-- A no-scaling transform attribute leaves the accumulated scale unchanged. -/
theorem stepTransform_scale (st : TState) (o : Option String)
    (h : attrNoScale o = true) :
    (stepTransform st o).sx = st.sx ∧ (stepTransform st o).sy = st.sy := by
  cases o with
  | none => exact ⟨rfl, rfl⟩
  | some s =>
    unfold attrNoScale at h
    have h2 : (match searchMatrix s.toList with
      | none => true
      | some (a, d, _, _) => a == 1 && d == 1) = true := h
    cases hm : searchMatrix s.toList with
    | none =>
      have hm2 : searchMatrix s.data = none := hm
      cases ht : searchTranslate s.toList with
      | none =>
        have ht2 : searchTranslate s.data = none := ht
        simp [stepTransform, hm2, ht2]
      | some v =>
        obtain ⟨dx, dy⟩ := v
        have ht2 : searchTranslate s.data = some (dx, dy) := ht
        simp [stepTransform, hm2, ht2]
    | some m =>
      obtain ⟨a, d, e, f⟩ := m
      rw [hm] at h2
      simp only [Bool.and_eq_true, beq_iff_eq] at h2
      obtain ⟨ha, hd⟩ := h2
      subst ha
      subst hd
      have hm2 : searchMatrix s.data = some (1, 1, e, f) := hm
      cases ht : searchTranslate s.toList with
      | none =>
        have ht2 : searchTranslate s.data = none := ht
        simp [stepTransform, hm2, ht2]
      | some v =>
        obtain ⟨dx, dy⟩ := v
        have ht2 : searchTranslate s.data = some (dx, dy) := ht
        simp [stepTransform, hm2, ht2]

theorem getTransform_scale_one :
    ∀ (ch : List (Option String)), (∀ o ∈ ch, attrNoScale o = true) →
      (getTransform ch).sx = 1 ∧ (getTransform ch).sy = 1 := by
  have main : ∀ (ch : List (Option String)) (st : TState),
      (∀ o ∈ ch, attrNoScale o = true) →
      (ch.foldl stepTransform st).sx = st.sx ∧ (ch.foldl stepTransform st).sy = st.sy := by
    intro ch
    induction ch with
    | nil => intro st _; exact ⟨rfl, rfl⟩
    | cons o rest ih =>
      intro st h
      have ho := stepTransform_scale st o (h o (by simp))
      have := ih (stepTransform st o) (fun x hx => h x (by simp [hx]))
      rw [List.foldl_cons]
      exact ⟨this.1.trans ho.1, this.2.trans ho.2⟩
  intro ch h
  exact main ch ⟨1, 1, 0, 0⟩ h

/-- On a scale-free chain, appending the wrapper translate shifts every applied
point by exactly `(10, 20)`. -/
theorem applyT_append_translate (ch : List (Option String))
    (hch : ∀ o ∈ ch, attrNoScale o = true) (p : ℚ × ℚ) :
    applyT (getTransform (ch ++ [some "translate(10,20)"])) p =
      ((applyT (getTransform ch) p).1 + 10, (applyT (getTransform ch) p).2 + 20) := by
  rw [getTransform_append, stepTransform_translate1020]
  obtain ⟨hsx, hsy⟩ := getTransform_scale_one ch hch
  unfold applyT
  simp only [hsx, hsy, Prod.mk.injEq]
  constructor <;> ring

/-! Appending ancestors to the inherited chain appends them to every collected
primitive's chain. -/
mutual
theorem primsN_chain_append (tag : String) (inM : Bool) (u v : List (Option String)) :
    ∀ (n : GNode), primsN tag inM (u ++ v) n =
      (primsN tag inM u n).map (fun x => (x.1, x.2.1, x.2.2 ++ v))
  | .mk t a c cs => by
    simp only [primsN]
    rw [show objGet a "transform" :: (u ++ v) = (objGet a "transform" :: u) ++ v from rfl]
    rw [primsL_chain_append tag (inM || t == "marker") (objGet a "transform" :: u) v cs]
    split <;> simp
theorem primsL_chain_append (tag : String) (inM : Bool) (u v : List (Option String)) :
    ∀ (cs : List GNode), primsL tag inM (u ++ v) cs =
      (primsL tag inM u cs).map (fun x => (x.1, x.2.1, x.2.2 ++ v))
  | [] => rfl
  | n :: ns => by
    simp only [primsL, List.map_append]
    rw [primsN_chain_append tag inM u v n, primsL_chain_append tag inM u v ns]
end

/-! In a tree with no scaling transforms, every collected chain consists of
no-scale attributes. -/
mutual
theorem primsN_chain_noScale (tag : String) (inM : Bool) (u : List (Option String))
    (hu : ∀ o ∈ u, attrNoScale o = true) :
    ∀ (n : GNode), noScalingN n = true →
      ∀ x ∈ primsN tag inM u n, ∀ o ∈ x.2.2, attrNoScale o = true
  | .mk t a c cs => by
    intro hn x hx o ho
    simp only [noScalingN, Bool.and_eq_true] at hn
    have hchain : ∀ o ∈ objGet a "transform" :: u, attrNoScale o = true := by
      intro o' ho'
      rcases List.mem_cons.mp ho' with rfl | ho'
      · exact hn.1
      · exact hu o' ho'
    simp only [primsN] at hx
    rcases List.mem_append.mp hx with hx | hx
    · split at hx
      · simp only [List.mem_singleton] at hx
        subst hx
        exact hchain o ho
      · simp at hx
    · exact primsL_chain_noScale tag (inM || t == "marker") (objGet a "transform" :: u)
        hchain cs hn.2 x hx o ho
theorem primsL_chain_noScale (tag : String) (inM : Bool) (u : List (Option String))
    (hu : ∀ o ∈ u, attrNoScale o = true) :
    ∀ (cs : List GNode), noScalingL cs = true →
      ∀ x ∈ primsL tag inM u cs, ∀ o ∈ x.2.2, attrNoScale o = true
  | [] => by intro _ x hx; simp [primsL] at hx
  | n :: ns => by
    intro hcs x hx o ho
    simp only [noScalingL, Bool.and_eq_true] at hcs
    simp only [primsL] at hx
    rcases List.mem_append.mp hx with hx | hx
    · exact primsN_chain_noScale tag inM u hu n hcs.1 x hx o ho
    · exact primsL_chain_noScale tag inM u hu ns hcs.2 x hx o ho
end

/-- Extending every chain by the wrapper translate shifts every contributed
point by `(10, 20)`, provided the chains carry no scaling. -/
theorem flatMapShift (ext : List (String × String) → String → List (ℚ × ℚ)) :
    ∀ (ps : List (List (String × String) × String × List (Option String))),
      (∀ x ∈ ps, ∀ o ∈ x.2.2, attrNoScale o = true) →
      (ps.map (fun x => (x.1, x.2.1, x.2.2 ++ [some "translate(10,20)"]))).flatMap
        (fun x => (ext x.1 x.2.1).map (applyT (getTransform x.2.2))) =
      (ps.flatMap (fun x => (ext x.1 x.2.1).map (applyT (getTransform x.2.2)))).map
        (fun p => (p.1 + 10, p.2 + 20))
  | [], _ => rfl
  | x :: xs, h => by
    simp only [List.map_cons, List.flatMap_cons, List.map_append]
    rw [flatMapShift ext xs (fun y hy => h y (by simp [hy]))]
    have hhead : (ext x.1 x.2.1).map (applyT (getTransform (x.2.2 ++ [some "translate(10,20)"]))) =
        ((ext x.1 x.2.1).map (applyT (getTransform x.2.2))).map
          (fun p => (p.1 + 10, p.2 + 20)) := by
      rw [List.map_map]
      refine List.map_congr_left ?_
      intro p _
      exact applyT_append_translate x.2.2 (h x (by simp)) p
    rw [hhead]

/-- Wrapping shifts the contribution points of every tag query by `(10, 20)`. -/
theorem shapePts_wrap (ext : List (String × String) → String → List (ℚ × ℚ))
    (tag : String) (htag : ("g" == tag) = false) (root : GNode)
    (h : noScalingN root = true) :
    shapePts ext tag (wrapTranslate root) =
      (shapePts ext tag root).map (fun p => (p.1 + 10, p.2 + 20)) := by
  obtain ⟨t, a, c, cs⟩ := root
  simp only [noScalingN, Bool.and_eq_true] at h
  unfold shapePts wrapTranslate
  simp only [GNode.children]
  have hg : primsL tag false ([] : List (Option String))
      [GNode.mk "g" [("transform", "translate(10,20)")] "" cs] =
      primsL tag false [some "translate(10,20)"] cs := by
    simp only [primsL, primsN, List.append_nil]
    rw [show (objGet [("transform", "translate(10,20)")] "transform") =
      some "translate(10,20)" from rfl]
    rw [show ("g" == "marker") = false from rfl]
    rw [htag]
    simp
  rw [hg]
  have happ : primsL tag false [some "translate(10,20)"] cs =
      (primsL tag false [] cs).map
        (fun x => (x.1, x.2.1, x.2.2 ++ [some "translate(10,20)"])) := by
    have := primsL_chain_append tag false [] [some "translate(10,20)"] cs
    simpa using this
  rw [happ]
  exact flatMapShift ext (primsL tag false [] cs)
    (primsL_chain_noScale tag false [] (by simp) cs h.2)

/-- The min/max fold commutes with a uniform shift of all points. -/
theorem bboxFoldShift :
    ∀ (ps : List (ℚ × ℚ)) (b : BBoxQ),
      (ps.map (fun p => (p.1 + 10, p.2 + 20))).foldl (fun b q =>
          ⟨min b.minX q.1, min b.minY q.2, max b.maxX q.1, max b.maxY q.2⟩)
        (shiftBox 10 20 b) =
      shiftBox 10 20 (ps.foldl (fun b q =>
          ⟨min b.minX q.1, min b.minY q.2, max b.maxX q.1, max b.maxY q.2⟩) b)
  | [], _ => rfl
  | q :: qs, b => by
    simp only [List.map_cons, List.foldl_cons]
    rw [show (⟨min (shiftBox 10 20 b).minX (q.1 + 10), min (shiftBox 10 20 b).minY (q.2 + 20),
        max (shiftBox 10 20 b).maxX (q.1 + 10), max (shiftBox 10 20 b).maxY (q.2 + 20)⟩ : BBoxQ) =
        shiftBox 10 20 ⟨min b.minX q.1, min b.minY q.2, max b.maxX q.1, max b.maxY q.2⟩ from by
      simp [shiftBox, min_add_add_right, max_add_add_right]]
    exact bboxFoldShift qs _

/-- C4 (amended): for every tree with no scaling transforms, wrapping the whole
tree in one extra `translate(10,20)` ancestor shifts the computed bounding box
by exactly `(10, 20)` (so its width and height are unchanged); with scaling
present the shift is scaled instead (see the counterexample). -/
theorem bboxWrapTranslateShift (root : GNode) (h : noScalingN root = true) :
    calculateBoundingBox (wrapTranslate root) =
      (calculateBoundingBox root).map (shiftBox 10 20) := by
  have hpts : allBoundsPts (wrapTranslate root) =
      (allBoundsPts root).map (fun p => (p.1 + 10, p.2 + 20)) := by
    unfold allBoundsPts
    rw [shapePts_wrap rectLocalPts "rect" (by decide) root h,
      shapePts_wrap circleLocalPts "circle" (by decide) root h,
      shapePts_wrap ellipseLocalPts "ellipse" (by decide) root h,
      shapePts_wrap textLocalPts "text" (by decide) root h,
      shapePts_wrap pathLocalPts "path" (by decide) root h,
      shapePts_wrap polygonLocalPts "polygon" (by decide) root h,
      shapePts_wrap polylineLocalPts "polyline" (by decide) root h]
    simp [List.map_append]
  unfold calculateBoundingBox
  rw [hpts]
  cases hp : allBoundsPts root with
  | nil => rfl
  | cons p ps =>
    simp only [List.map_cons]
    have := bboxFoldShift ps ⟨p.1, p.2, p.1, p.2⟩
    rw [show (⟨p.1 + 10, p.2 + 20, p.1 + 10, p.2 + 20⟩ : BBoxQ) =
      shiftBox 10 20 ⟨p.1, p.2, p.1, p.2⟩ from rfl]
    rw [this]
    rfl

/-- `a || 0` keeps a parsed number even when it is zero (both branches agree). -/
theorem jsOrQ_some_zero (q : ℚ) : jsOrQ (some q) 0 = q := by
  show (if q == 0 then 0 else q) = q
  by_cases h : q = 0
  · simp [h]
  · simp [h]

/-- `parseFloat(attr) || 0` on a plain digit-string attribute. -/
theorem numAttr_digits (a : List (String × String)) (k : String) (d : List Char)
    (h : objGet a k = some (String.mk d)) (hne : d ≠ [])
    (hd : ∀ c ∈ d, isDigitC c = true) :
    numAttr a k = ((decVal d : ℕ) : ℚ) := by
  unfold numAttr
  rw [h]
  show jsOrQ (jsParseFloatL d) 0 = _
  rw [jsParseFloatL_digits d hne hd, jsOrQ_some_zero]

/-- The scaling attribute of the counterexample tree parses to a matrix. -/
theorem searchMatrix_mat2 :
    searchMatrix "matrix(2, 0, 0, 2, 0, 0)".toList =
      some (jsOrQ (jsParseFloatL ['2']) 1, jsOrQ (jsParseFloatL ['2']) 1,
        jsOrQ (jsParseFloatL ['0']) 0, jsOrQ (jsParseFloatL ['0']) 0) := rfl

theorem searchTranslate_mat2 :
    searchTranslate "matrix(2, 0, 0, 2, 0, 0)".toList = none := by decide

/-- One loop step on the scale-2 matrix from the identity state. -/
theorem stepTransform_mat2 :
    stepTransform ⟨1, 1, 0, 0⟩ (some "matrix(2, 0, 0, 2, 0, 0)") = ⟨2, 2, 0, 0⟩ := by
  simp only [stepTransform, searchMatrix_mat2, searchTranslate_mat2]
  rw [jsParseFloatL_digits ['2'] (by simp) (by decide),
    jsParseFloatL_digits ['0'] (by simp) (by decide)]
  have h2 : jsOrQ (some ((decVal ['2'] : ℕ) : ℚ)) 1 = 2 := by
    rw [show decVal ['2'] = 2 from by decide]
    norm_num [jsOrQ]
  have h0 : jsOrQ (some ((decVal ['0'] : ℕ) : ℚ)) 0 = 0 := by
    rw [show decVal ['0'] = 0 from by decide]
    simp [jsOrQ]
  rw [h2, h0]
  norm_num [TState.mk.injEq]

/-- The accumulated transform of the rect inside the scaled tree. -/
theorem getTransform_chain_mat2 :
    getTransform [none, some "matrix(2, 0, 0, 2, 0, 0)"] = ⟨2, 2, 0, 0⟩ :=
  stepTransform_mat2

/-- The accumulated transform after wrapping in `translate(10,20)`:
the translation is scaled to `(20, 40)`. -/
theorem getTransform_chain_mat2_wrapped :
    getTransform [none, some "matrix(2, 0, 0, 2, 0, 0)", some "translate(10,20)"] =
      ⟨2, 2, 20, 40⟩ := by
  show stepTransform (getTransform [none, some "matrix(2, 0, 0, 2, 0, 0)"])
    (some "translate(10,20)") = _
  rw [getTransform_chain_mat2, stepTransform_translate1020]
  norm_num [TState.mk.injEq]

/-- Local corner points of the unit rect at the origin. -/
theorem rectLocalPts_unit :
    rectLocalPts [("x", "0"), ("y", "0"), ("width", "1"), ("height", "1")] "" =
      [((0 : ℚ), (0 : ℚ)), (1, 1)] := by
  have hx : numAttr [("x", "0"), ("y", "0"), ("width", "1"), ("height", "1")] "x" = 0 := by
    rw [numAttr_digits _ _ ['0'] (by decide) (by simp) (by decide),
      show decVal ['0'] = 0 from by decide]
    norm_num
  have hy : numAttr [("x", "0"), ("y", "0"), ("width", "1"), ("height", "1")] "y" = 0 := by
    rw [numAttr_digits _ _ ['0'] (by decide) (by simp) (by decide),
      show decVal ['0'] = 0 from by decide]
    norm_num
  have hw : numAttr [("x", "0"), ("y", "0"), ("width", "1"), ("height", "1")] "width" = 1 := by
    rw [numAttr_digits _ _ ['1'] (by decide) (by simp) (by decide),
      show decVal ['1'] = 1 from by decide]
    norm_num
  have hh : numAttr [("x", "0"), ("y", "0"), ("width", "1"), ("height", "1")] "height" = 1 := by
    rw [numAttr_digits _ _ ['1'] (by decide) (by simp) (by decide),
      show decVal ['1'] = 1 from by decide]
    norm_num
  show [(numAttr [("x", "0"), ("y", "0"), ("width", "1"), ("height", "1")] "x",
         numAttr [("x", "0"), ("y", "0"), ("width", "1"), ("height", "1")] "y"),
        (numAttr [("x", "0"), ("y", "0"), ("width", "1"), ("height", "1")] "x" +
           numAttr [("x", "0"), ("y", "0"), ("width", "1"), ("height", "1")] "width",
         numAttr [("x", "0"), ("y", "0"), ("width", "1"), ("height", "1")] "y" +
           numAttr [("x", "0"), ("y", "0"), ("width", "1"), ("height", "1")] "height")] = _
  rw [hx, hy, hw, hh]
  norm_num

/-- The scaled tree's only rect primitive and its transform chain. -/
theorem primsRect_scaled :
    primsL "rect" false [] scaledRectTree.children =
      [([("x", "0"), ("y", "0"), ("width", "1"), ("height", "1")], "",
        [none, some "matrix(2, 0, 0, 2, 0, 0)"])] := by decide

/-- After wrapping, the chain additionally carries the `translate(10,20)`. -/
theorem primsRect_scaled_wrapped :
    primsL "rect" false [] (wrapTranslate scaledRectTree).children =
      [([("x", "0"), ("y", "0"), ("width", "1"), ("height", "1")], "",
        [none, some "matrix(2, 0, 0, 2, 0, 0)", some "translate(10,20)"])] := by decide

/-- All contribution points of the scaled tree. -/
theorem allBoundsPts_scaled :
    allBoundsPts scaledRectTree = [((0 : ℚ), (0 : ℚ)), (2, 2)] := by
  have hrect : shapePts rectLocalPts "rect" scaledRectTree =
      (rectLocalPts [("x", "0"), ("y", "0"), ("width", "1"), ("height", "1")] "").map
        (applyT (getTransform [none, some "matrix(2, 0, 0, 2, 0, 0)"])) := by
    show (primsL "rect" false [] scaledRectTree.children).flatMap _ = _
    rw [primsRect_scaled]
    simp
  have hmap : (rectLocalPts [("x", "0"), ("y", "0"), ("width", "1"), ("height", "1")] "").map
      (applyT (getTransform [none, some "matrix(2, 0, 0, 2, 0, 0)"])) =
      [((0 : ℚ), (0 : ℚ)), (2, 2)] := by
    rw [rectLocalPts_unit, getTransform_chain_mat2]
    simp only [List.map_cons, List.map_nil, applyT]
    norm_num
  show shapePts rectLocalPts "rect" scaledRectTree ++ shapePts circleLocalPts "circle" scaledRectTree ++
    shapePts ellipseLocalPts "ellipse" scaledRectTree ++ shapePts textLocalPts "text" scaledRectTree ++
    shapePts pathLocalPts "path" scaledRectTree ++ shapePts polygonLocalPts "polygon" scaledRectTree ++
    shapePts polylineLocalPts "polyline" scaledRectTree = _
  rw [hrect, hmap,
    show shapePts circleLocalPts "circle" scaledRectTree = [] from rfl,
    show shapePts ellipseLocalPts "ellipse" scaledRectTree = [] from rfl,
    show shapePts textLocalPts "text" scaledRectTree = [] from rfl,
    show shapePts pathLocalPts "path" scaledRectTree = [] from rfl,
    show shapePts polygonLocalPts "polygon" scaledRectTree = [] from rfl,
    show shapePts polylineLocalPts "polyline" scaledRectTree = [] from rfl]
  simp

/-- All contribution points of the wrapped scaled tree. -/
theorem allBoundsPts_scaled_wrapped :
    allBoundsPts (wrapTranslate scaledRectTree) = [((20 : ℚ), (40 : ℚ)), (22, 42)] := by
  have hrect : shapePts rectLocalPts "rect" (wrapTranslate scaledRectTree) =
      (rectLocalPts [("x", "0"), ("y", "0"), ("width", "1"), ("height", "1")] "").map
        (applyT (getTransform
          [none, some "matrix(2, 0, 0, 2, 0, 0)", some "translate(10,20)"])) := by
    show (primsL "rect" false [] (wrapTranslate scaledRectTree).children).flatMap _ = _
    rw [primsRect_scaled_wrapped]
    simp
  have hmap : (rectLocalPts [("x", "0"), ("y", "0"), ("width", "1"), ("height", "1")] "").map
      (applyT (getTransform
        [none, some "matrix(2, 0, 0, 2, 0, 0)", some "translate(10,20)"])) =
      [((20 : ℚ), (40 : ℚ)), (22, 42)] := by
    rw [rectLocalPts_unit, getTransform_chain_mat2_wrapped]
    simp only [List.map_cons, List.map_nil, applyT]
    norm_num
  show shapePts rectLocalPts "rect" (wrapTranslate scaledRectTree) ++
    shapePts circleLocalPts "circle" (wrapTranslate scaledRectTree) ++
    shapePts ellipseLocalPts "ellipse" (wrapTranslate scaledRectTree) ++
    shapePts textLocalPts "text" (wrapTranslate scaledRectTree) ++
    shapePts pathLocalPts "path" (wrapTranslate scaledRectTree) ++
    shapePts polygonLocalPts "polygon" (wrapTranslate scaledRectTree) ++
    shapePts polylineLocalPts "polyline" (wrapTranslate scaledRectTree) = _
  rw [hrect, hmap,
    show shapePts circleLocalPts "circle" (wrapTranslate scaledRectTree) = [] from rfl,
    show shapePts ellipseLocalPts "ellipse" (wrapTranslate scaledRectTree) = [] from rfl,
    show shapePts textLocalPts "text" (wrapTranslate scaledRectTree) = [] from rfl,
    show shapePts pathLocalPts "path" (wrapTranslate scaledRectTree) = [] from rfl,
    show shapePts polygonLocalPts "polygon" (wrapTranslate scaledRectTree) = [] from rfl,
    show shapePts polylineLocalPts "polyline" (wrapTranslate scaledRectTree) = [] from rfl]
  simp

/-- C4: counterexample to the claimed exact `(10,20)` shift.  On a tree whose
ancestor chain carries `matrix(2, 0, 0, 2, 0, 0)`, the bounding box is
`(0, 0, 2, 2)` but after wrapping in `translate(10,20)` it is
`(20, 40, 22, 42)`: the minima shift by `(20, 40)`, not `(10, 20)`, because
`getTransform` multiplies the translation by the accumulated scale
(`tx += dx * scaleX`, line 513). -/
theorem bboxWrapScaledShift :
    calculateBoundingBox scaledRectTree = some ⟨0, 0, 2, 2⟩ ∧
    calculateBoundingBox (wrapTranslate scaledRectTree) = some ⟨20, 40, 22, 42⟩ ∧
    (20 : ℚ) - 0 ≠ 10 := by
  refine ⟨?_, ?_, by norm_num⟩
  · unfold calculateBoundingBox
    rw [allBoundsPts_scaled]
    show some (⟨min (0 : ℚ) 2, min (0 : ℚ) 2, max (0 : ℚ) 2, max (0 : ℚ) 2⟩ : BBoxQ) = _
    norm_num [BBoxQ.mk.injEq]
  · unfold calculateBoundingBox
    rw [allBoundsPts_scaled_wrapped]
    show some (⟨min (20 : ℚ) 22, min (40 : ℚ) 42, max (20 : ℚ) 22, max (40 : ℚ) 42⟩ : BBoxQ) = _
    norm_num [BBoxQ.mk.injEq]

/-- The amended C4 theorem holds at a concrete scale-free tree. -/
theorem bboxWrapTranslateShiftWitness :
    noScalingN plainRectTree = true ∧
    calculateBoundingBox (wrapTranslate plainRectTree) =
      (calculateBoundingBox plainRectTree).map (shiftBox 10 20) :=
  ⟨by decide, bboxWrapTranslateShift plainRectTree (by decide)⟩

/-! ### Claim C7: unparseable numeric fields and bounding-box contribution -/

/-- C7: counterexample — a path whose `d` attribute contains no parseable
coordinate pair is collected by the tag query (it is a visible primitive) yet
contributes nothing: every NaN pair is skipped (lines 603-609), so the tree's
bounding box is `none` rather than a zero-defaulted box — the primitive is
silently dropped. -/
theorem pathUnparseableDropped :
    primsL "path" false [] [GNode.mk "path" [("d", "M")] "" []] ≠ [] ∧
    calculateBoundingBox (GNode.mk "svg" [] "" [GNode.mk "path" [("d", "M")] "" []]) =
      none :=
  ⟨by decide, rfl⟩

/-- C7 (amended): for attribute-based primitives the claim does hold — a rect
all of whose numeric fields are unparseable still contributes, with every field
defaulted to `0` by `parseFloat(attr) || 0`, giving the box `(0, 0, 0, 0)`;
but a path, polygon or polyline with no parseable coordinate pair is dropped
(see the counterexample). -/
theorem rectUnparseableContributes (a : List (String × String))
    (hx : (objGet a "x").bind jsParseFloat = none)
    (hy : (objGet a "y").bind jsParseFloat = none)
    (hw : (objGet a "width").bind jsParseFloat = none)
    (hh : (objGet a "height").bind jsParseFloat = none)
    (ht : objGet a "transform" = none) :
    calculateBoundingBox (GNode.mk "svg" [] "" [GNode.mk "rect" a "" []]) =
      some ⟨0, 0, 0, 0⟩ := by
  have hnx : numAttr a "x" = 0 := by
    unfold numAttr
    rw [hx]
    rfl
  have hny : numAttr a "y" = 0 := by
    unfold numAttr
    rw [hy]
    rfl
  have hnw : numAttr a "width" = 0 := by
    unfold numAttr
    rw [hw]
    rfl
  have hnh : numAttr a "height" = 0 := by
    unfold numAttr
    rw [hh]
    rfl
  have hrl : rectLocalPts a "" = [((0 : ℚ), (0 : ℚ)), (0 + 0, 0 + 0)] := by
    show [(numAttr a "x", numAttr a "y"),
      (numAttr a "x" + numAttr a "width", numAttr a "y" + numAttr a "height")] = _
    rw [hnx, hny, hnw, hnh]
  have hs : shapePts rectLocalPts "rect" (GNode.mk "svg" [] "" [GNode.mk "rect" a "" []]) =
      (rectLocalPts a "").map (applyT (getTransform [none])) := by
    show (primsL "rect" false [] [GNode.mk "rect" a "" []]).flatMap _ = _
    rw [show primsL "rect" false [] [GNode.mk "rect" a "" []] =
      [(a, "", [objGet a "transform"])] from rfl, ht]
    simp
  have hmap : (rectLocalPts a "").map (applyT (getTransform [none])) =
      [((0 : ℚ), (0 : ℚ)), (0, 0)] := by
    rw [hrl]
    show [applyT ⟨1, 1, 0, 0⟩ ((0 : ℚ), (0 : ℚ)), applyT ⟨1, 1, 0, 0⟩ (0 + 0, 0 + 0)] = _
    simp only [applyT]
    norm_num
  have hall : allBoundsPts (GNode.mk "svg" [] "" [GNode.mk "rect" a "" []]) =
      [((0 : ℚ), (0 : ℚ)), (0, 0)] := by
    show shapePts rectLocalPts "rect" _ ++ shapePts circleLocalPts "circle" _ ++
      shapePts ellipseLocalPts "ellipse" _ ++ shapePts textLocalPts "text" _ ++
      shapePts pathLocalPts "path" _ ++ shapePts polygonLocalPts "polygon" _ ++
      shapePts polylineLocalPts "polyline" _ = _
    rw [hs, hmap,
      show shapePts circleLocalPts "circle"
        (GNode.mk "svg" [] "" [GNode.mk "rect" a "" []]) = [] from rfl,
      show shapePts ellipseLocalPts "ellipse"
        (GNode.mk "svg" [] "" [GNode.mk "rect" a "" []]) = [] from rfl,
      show shapePts textLocalPts "text"
        (GNode.mk "svg" [] "" [GNode.mk "rect" a "" []]) = [] from rfl,
      show shapePts pathLocalPts "path"
        (GNode.mk "svg" [] "" [GNode.mk "rect" a "" []]) = [] from rfl,
      show shapePts polygonLocalPts "polygon"
        (GNode.mk "svg" [] "" [GNode.mk "rect" a "" []]) = [] from rfl,
      show shapePts polylineLocalPts "polyline"
        (GNode.mk "svg" [] "" [GNode.mk "rect" a "" []]) = [] from rfl]
    simp
  unfold calculateBoundingBox
  rw [hall]
  show some (⟨min (0 : ℚ) 0, min (0 : ℚ) 0, max (0 : ℚ) 0, max (0 : ℚ) 0⟩ : BBoxQ) = _
  norm_num [BBoxQ.mk.injEq]

/-- The amended C7 theorem holds at a concrete rect whose four numeric fields
are all unparseable. -/
theorem rectUnparseableContributesWitness :
    ((objGet [("x", "abc"), ("y", "NaN"), ("width", "--"), ("height", "e5")] "x").bind
        jsParseFloat = none ∧
      (objGet [("x", "abc"), ("y", "NaN"), ("width", "--"), ("height", "e5")] "y").bind
        jsParseFloat = none ∧
      (objGet [("x", "abc"), ("y", "NaN"), ("width", "--"), ("height", "e5")] "width").bind
        jsParseFloat = none ∧
      (objGet [("x", "abc"), ("y", "NaN"), ("width", "--"), ("height", "e5")] "height").bind
        jsParseFloat = none ∧
      objGet [("x", "abc"), ("y", "NaN"), ("width", "--"), ("height", "e5")] "transform" =
        none) ∧
    calculateBoundingBox (GNode.mk "svg" [] ""
        [GNode.mk "rect" [("x", "abc"), ("y", "NaN"), ("width", "--"), ("height", "e5")] "" []]) =
      some ⟨0, 0, 0, 0⟩ :=
  ⟨⟨by decide, by decide, by decide, by decide, by decide⟩,
    rectUnparseableContributes _ (by decide) (by decide) (by decide) (by decide) (by decide)⟩

/-! ### Claim C5: the marker recoloring scenario -/

/-- Removing an attribute really removes it. -/
theorem objGet_removeAttr_self {α : Type} (o : List (String × α)) (k : String) :
    objGet (removeAttr o k) k = none := by
  induction o with
  | nil => rfl
  | cons kv rest ih =>
    unfold removeAttr
    rw [List.filter_cons]
    by_cases hk : kv.1 = k
    · have hb : (kv.1 != k) = false := by simp [hk]
      rw [hb]
      simpa [removeAttr] using ih
    · have hb : (kv.1 != k) = true := by simp [hk]
      rw [if_pos hb]
      rw [objGet_cons, if_neg hk]
      simpa [removeAttr] using ih

/-- Removing one attribute leaves the others readable unchanged. -/
theorem objGet_removeAttr_ne {α : Type} (o : List (String × α)) (k k' : String)
    (h : k' ≠ k) :
    objGet (removeAttr o k) k' = objGet o k' := by
  induction o with
  | nil => rfl
  | cons kv rest ih =>
    unfold removeAttr
    rw [List.filter_cons]
    by_cases hk : kv.1 = k
    · have hb : (kv.1 != k) = false := by simp [hk]
      rw [hb]
      simp only [Bool.false_eq_true, if_false]
      have hkv : kv.1 ≠ k' := by
        rw [hk]
        exact fun he => h he.symm
      rw [objGet_cons, if_neg hkv]
      simpa [removeAttr] using ih
    · have hb : (kv.1 != k) = true := by simp [hk]
      rw [if_pos hb]
      rw [objGet_cons, objGet_cons]
      by_cases hk2 : kv.1 = k'
      · rw [if_pos hk2, if_pos hk2]
      · rw [if_neg hk2, if_neg hk2]
        simpa [removeAttr] using ih

/-- The per-shape rewrite of the marker pass establishes the full recolored
postcondition of claim C5. -/
theorem shapeRecolored_applyOps (color : String) (a : List (String × String)) :
    shapeRecoloredOK color (applyMarkerOps color a) = true := by
  have hfill : objGet (applyMarkerOps color a) "fill" = some color := by
    unfold applyMarkerOps
    rw [objGet_removeAttr_ne _ _ _ (by decide), objGet_removeAttr_ne _ _ _ (by decide),
      objGet_removeAttr_ne _ _ _ (by decide), objGet_removeAttr_ne _ _ _ (by decide),
      objGet_objSet, if_neg (by decide), objGet_objSet, if_pos rfl]
  have hstroke : objGet (applyMarkerOps color a) "stroke" = some "none" := by
    unfold applyMarkerOps
    rw [objGet_removeAttr_ne _ _ _ (by decide), objGet_removeAttr_ne _ _ _ (by decide),
      objGet_removeAttr_ne _ _ _ (by decide), objGet_removeAttr_ne _ _ _ (by decide),
      objGet_objSet, if_pos rfl]
  have hstyle : objGet (applyMarkerOps color a) "style" = none := by
    unfold applyMarkerOps
    rw [objGet_removeAttr_ne _ _ _ (by decide), objGet_removeAttr_ne _ _ _ (by decide),
      objGet_removeAttr_ne _ _ _ (by decide), objGet_removeAttr_self]
  have hclass : objGet (applyMarkerOps color a) "class" = none := by
    unfold applyMarkerOps
    rw [objGet_removeAttr_ne _ _ _ (by decide), objGet_removeAttr_ne _ _ _ (by decide),
      objGet_removeAttr_self]
  have hsw : objGet (applyMarkerOps color a) "stroke-width" = none := by
    unfold applyMarkerOps
    rw [objGet_removeAttr_ne _ _ _ (by decide), objGet_removeAttr_self]
  have hsd : objGet (applyMarkerOps color a) "stroke-dasharray" = none := by
    unfold applyMarkerOps
    rw [objGet_removeAttr_self]
  simp [shapeRecoloredOK, hfill, hstroke, hstyle, hclass, hsw, hsd]

/-- An inline-style stroke of `rgb(0,128,0)` wins the fallback chain and is
normalized to `#008000`. -/
theorem strokeColorOf_inline_green (cssRules : List (String × List (String × String)))
    (idPrefix : String) (x : String × List (String × String) × List String)
    (h : objGet (parseInlineStyle ((objGet x.2.1 "style").getD "")) "stroke" =
      some "rgb(0,128,0)") :
    strokeColorOf cssRules idPrefix x = "#008000" := by
  show rgbToHex (jsOrStr (objGet (parseInlineStyle ((objGet x.2.1 "style").getD "")) "stroke")
    (jsOrStr (objGet x.2.1 "stroke")
      (jsOrStr (objGet (getApplicableStyles x.1 ((objGet x.2.1 "class").getD "") x.2.2
        cssRules idPrefix) "stroke") "#333333"))) = _
  rw [h]
  show rgbToHex "rgb(0,128,0)" = _
  decide

/-- Last-writer-wins for a fold of `Map.set` operations: when every written
pair with the key carries the same value and the key is written at least once
(or already bound to that value), the final map binds the key to that value. -/
theorem objGet_foldSet (k v : String) :
    ∀ (pairs : List (String × String)) (m0 : List (String × String)),
      (∀ p ∈ pairs, p.1 = k → p.2 = v) →
      ((∃ p ∈ pairs, p.1 = k) ∨ objGet m0 k = some v) →
      objGet (pairs.foldl (fun m p => objSet m p.1 p.2) m0) k = some v
  | [], m0, _, hex => by
    rcases hex with ⟨p, hp, _⟩ | h
    · exact absurd hp (List.not_mem_nil p)
    · exact h
  | p :: ps, m0, hall, hex => by
    rw [List.foldl_cons]
    apply objGet_foldSet k v ps (objSet m0 p.1 p.2)
      (fun q hq hqk => hall q (List.mem_cons_of_mem p hq) hqk)
    by_cases hk : p.1 = k
    · right
      rw [objGet_objSet, if_pos hk.symm, hall p (List.mem_cons_self p ps) hk]
    · rcases hex with ⟨q, hq, hqk⟩ | h
      · rcases List.mem_cons.mp hq with rfl | hq2
        · exact absurd hqk hk
        · exact Or.inl ⟨q, hq2, hqk⟩
      · right
        rw [objGet_objSet, if_neg (fun he => hk he.symm)]
        exact h

mutual
/-- Inside a marker (whose subtree contains no further marker), the pass
rewrites every shape node to the recolored postcondition. -/
theorem shapesPass_noMarkerN (colors : List (String × String)) (color : String) :
    ∀ n : GNode, noMarkerN n = true →
      shapesOKN color (markerPassN colors [color] n) = true
  | .mk t a c cs, h => by
    have h' : (t != "marker") = true ∧ noMarkerL cs = true := by
      simpa [noMarkerN, Bool.and_eq_true] using h
    have hne : ¬(t == "marker") = true := by
      simpa using h'.1
    simp only [markerPassN]
    rw [if_neg hne]
    simp only [shapesOKN]
    rw [shapesPass_noMarkerL colors color cs h'.2]
    by_cases hs : isShapeTag t = true
    · rw [if_pos hs]
      show ((!isShapeTag t || shapeRecoloredOK color
        (List.foldl (fun ac col => applyMarkerOps col ac) a [color])) && true) = true
      rw [show List.foldl (fun ac col => applyMarkerOps col ac) a [color] =
        applyMarkerOps color a from rfl]
      rw [shapeRecolored_applyOps]
      simp
    · rw [if_neg hs]
      have hns : (!isShapeTag t) = true := by
        simpa using hs
      rw [hns]
      simp

/-- Forest version of `shapesPass_noMarkerN`. -/
theorem shapesPass_noMarkerL (colors : List (String × String)) (color : String) :
    ∀ ns : List GNode, noMarkerL ns = true →
      shapesOKL color (markerPassL colors [color] ns) = true
  | [], _ => rfl
  | n :: ns, h => by
    have h' : noMarkerN n = true ∧ noMarkerL ns = true := by
      simpa [noMarkerL, Bool.and_eq_true] using h
    simp only [markerPassL, shapesOKL]
    rw [shapesPass_noMarkerN colors color n h'.1, shapesPass_noMarkerL colors color ns h'.2]
    rfl
end

mutual
/-- When no marker nests inside another, the marker pass makes every marker's
contained shapes satisfy the recolored postcondition for that marker's looked-up
color. -/
theorem markersPass_OKN (colors : List (String × String)) :
    ∀ n : GNode, noNestedN n = true →
      markersOKN colors (markerPassN colors [] n) = true
  | .mk t a c cs, h => by
    by_cases ht : (t == "marker") = true
    · have hcs : noMarkerL cs = true := by
        have h2 : (if t == "marker" then noMarkerL cs else noNestedL cs) = true := h
        rwa [if_pos ht] at h2
      simp only [markerPassN]
      rw [if_pos ht]
      simp only [markersOKN]
      rw [if_pos ht]
      have hid : colorFor colors (removeAttr (removeAttr a "class") "style") =
          colorFor colors a := by
        unfold colorFor
        rw [objGet_removeAttr_ne _ _ _ (by decide), objGet_removeAttr_ne _ _ _ (by decide)]
      rw [hid]
      show shapesOKL (colorFor colors a)
        (markerPassL colors [colorFor colors a] cs) = true
      exact shapesPass_noMarkerL colors (colorFor colors a) cs hcs
    · have hcs : noNestedL cs = true := by
        have h2 : (if t == "marker" then noMarkerL cs else noNestedL cs) = true := h
        rwa [if_neg ht] at h2
      simp only [markerPassN]
      rw [if_neg ht]
      simp only [markersOKN]
      rw [if_neg ht]
      exact markersPass_OKL colors cs hcs

/-- Forest version of `markersPass_OKN`. -/
theorem markersPass_OKL (colors : List (String × String)) :
    ∀ ns : List GNode, noNestedL ns = true →
      markersOKL colors (markerPassL colors [] ns) = true
  | [], _ => rfl
  | n :: ns, h => by
    have h' : noNestedN n = true ∧ noNestedL ns = true := by
      simpa [noNestedL, Bool.and_eq_true] using h
    simp only [markerPassL, markersOKL]
    rw [markersPass_OKN colors n h'.1, markersPass_OKL colors ns h'.2]
    rfl
end

/-- C5: the marker recoloring scenario.  If every node referencing marker
`arrow1` carries an effective inline-style stroke of `rgb(0,128,0)`, at least
one node references it, and no marker nests inside another, then (i) the
extraction loop records `#008000` for `arrow1`, (ii) after the marker pass
every marker's contained shapes have `fill` equal to that marker's recorded (or
default) color, `stroke="none"`, and their `style`, `class`, `stroke-width` and
`stroke-dasharray` attributes removed, and (iii) a marker whose id is recorded
by no referencing node gets the default color `#333333`. -/
theorem markerRecolorEndToEnd (cssRules : List (String × List (String × String)))
    (idPrefix : String) (root : GNode)
    (h1 : ∀ x ∈ refNodes root "arrow1",
      objGet (parseInlineStyle ((objGet x.2.1 "style").getD "")) "stroke" =
        some "rgb(0,128,0)")
    (h2 : refNodes root "arrow1" ≠ [])
    (h3 : noNestedN root = true) :
    objGet (markerColorsOf cssRules idPrefix root) "arrow1" = some "#008000" ∧
    markersOKN (markerColorsOf cssRules idPrefix root)
      (markerPass (markerColorsOf cssRules idPrefix root) root) = true ∧
    ∀ a : List (String × String),
      (objGet a "id").bind (fun i => objGet (markerColorsOf cssRules idPrefix root) i) =
        none →
      colorFor (markerColorsOf cssRules idPrefix root) a = "#333333" := by
  refine ⟨?_, markersPass_OKN (markerColorsOf cssRules idPrefix root) root h3, ?_⟩
  · have hvals : ∀ p ∈ markerPairs cssRules idPrefix root,
        p.1 = "arrow1" → p.2 = "#008000" := by
      intro p hp hk
      unfold markerPairs at hp
      rw [List.mem_flatMap] at hp
      obtain ⟨x, hx, hpx⟩ := hp
      rw [List.mem_map] at hpx
      obtain ⟨i, hi, rfl⟩ := hpx
      have hieq : i = "arrow1" := hk
      subst hieq
      have hxref : x ∈ refNodes root "arrow1" := by
        unfold refNodes
        rw [List.mem_filter]
        refine ⟨hx, ?_⟩
        simpa using hi
      exact strokeColorOf_inline_green cssRules idPrefix x (h1 x hxref)
    have hex : ∃ p ∈ markerPairs cssRules idPrefix root, p.1 = "arrow1" := by
      obtain ⟨x, hx⟩ := List.exists_mem_of_ne_nil _ h2
      have hf := List.mem_filter.mp hx
      refine ⟨("arrow1", strokeColorOf cssRules idPrefix x), ?_, rfl⟩
      unfold markerPairs
      rw [List.mem_flatMap]
      refine ⟨x, hf.1, ?_⟩
      rw [List.mem_map]
      exact ⟨"arrow1", by simpa using hf.2, rfl⟩
    exact objGet_foldSet "arrow1" "#008000" _ [] hvals (Or.inl hex)
  · intro a ha
    unfold colorFor
    rw [ha]
    rfl

/-- The C5 theorem holds at the concrete one-marker document. -/
theorem markerRecolorEndToEndWitness :
    (∀ x ∈ refNodes markerExTree "arrow1",
      objGet (parseInlineStyle ((objGet x.2.1 "style").getD "")) "stroke" =
        some "rgb(0,128,0)") ∧
    refNodes markerExTree "arrow1" ≠ [] ∧
    noNestedN markerExTree = true ∧
    (objGet (markerColorsOf [] "" markerExTree) "arrow1" = some "#008000" ∧
     markersOKN (markerColorsOf [] "" markerExTree)
       (markerPass (markerColorsOf [] "" markerExTree) markerExTree) = true ∧
     ∀ a : List (String × String),
       (objGet a "id").bind (fun i => objGet (markerColorsOf [] "" markerExTree) i) =
         none →
       colorFor (markerColorsOf [] "" markerExTree) a = "#333333") :=
  ⟨by decide, by decide, by decide,
    markerRecolorEndToEnd [] "" markerExTree (by decide) (by decide) (by decide)⟩
